import Mathlib

/-!
# Verification of the Public Slip API's sync and retrieval engine

Shallow embedding of `src/index.js` (the Express handlers for
`POST /api/sync-slips` and `GET /api/placement-slips/:masterSlipId`) over a
JSON-like value model.  Documents are association lists of fields; the five
MongoDB collections are lists of documents; `updateOne(filter, {$set}, upsert)`
is modelled as update-first-match-else-insert.
-/

namespace SlipAPI

/-- A JavaScript/BSON value.  Numbers are modelled as rationals (JS numbers in
this code base are decimal floats used exactly); `NaN` — which arises from
`parseInt`/`parseFloat` on non-numeric text — is a separate constructor because
both MongoDB equality and `Map` key equality treat `NaN` as equal to itself.
`date ms` is a JS `Date` at `ms` milliseconds since the Unix epoch. -/
inductive JVal where
  | null : JVal
  | undef : JVal
  | nan : JVal
  | bool : Bool → JVal
  | num : Rat → JVal
  | str : String → JVal
  | date : Int → JVal
  | obj : List (String × JVal) → JVal
  | arr : List JVal → JVal
  deriving Repr

mutual

/-- Structural equality on values.  This is the equality used both by MongoDB
filters (BSON comparison) and by JS `Map`/`Set` keys (same-value-zero); for
the primitive values that actually flow through these code paths the two
coincide, and `NaN` equals itself in both. -/
def JVal.beq : JVal → JVal → Bool
  | .null, .null => true
  | .undef, .undef => true
  | .nan, .nan => true
  | .bool a, .bool b => a == b
  | .num a, .num b => a == b
  | .str a, .str b => a == b
  | .date a, .date b => a == b
  | .obj a, .obj b => beqFields a b
  | .arr a, .arr b => beqVals a b
  | _, _ => false

/-- Structural equality of field lists. -/
def beqFields : List (String × JVal) → List (String × JVal) → Bool
  | [], [] => true
  | (k, v) :: a, (k', v') :: b => k == k' && JVal.beq v v' && beqFields a b
  | _, _ => false

/-- Structural equality of value lists. -/
def beqVals : List JVal → List JVal → Bool
  | [], [] => true
  | v :: a, v' :: b => JVal.beq v v' && beqVals a b
  | _, _ => false

end

mutual

theorem JVal.eq_of_beq : ∀ {a b : JVal}, JVal.beq a b = true → a = b
  | .null, .null, _ => rfl
  | .undef, .undef, _ => rfl
  | .nan, .nan, _ => rfl
  | .bool _, .bool _, h => by
      simp only [JVal.beq, beq_iff_eq] at h; exact congrArg JVal.bool h
  | .num _, .num _, h => by
      simp only [JVal.beq, beq_iff_eq] at h; exact congrArg JVal.num h
  | .str _, .str _, h => by
      simp only [JVal.beq, beq_iff_eq] at h; exact congrArg JVal.str h
  | .date _, .date _, h => by
      simp only [JVal.beq, beq_iff_eq] at h; exact congrArg JVal.date h
  | .obj a, .obj b, h => congrArg JVal.obj (eqFields_of_beq (a := a) (b := b) h)
  | .arr a, .arr b, h => congrArg JVal.arr (eqVals_of_beq (a := a) (b := b) h)

theorem eqFields_of_beq : ∀ {a b : List (String × JVal)}, beqFields a b = true → a = b
  | [], [], _ => rfl
  | (k, v) :: a, (k', v') :: b, h => by
      simp only [beqFields, Bool.and_eq_true, beq_iff_eq] at h
      obtain ⟨⟨hk, hv⟩, ht⟩ := h
      have h1 : v = v' := JVal.eq_of_beq hv
      have h2 : a = b := eqFields_of_beq ht
      simp [hk, h1, h2]

theorem eqVals_of_beq : ∀ {a b : List JVal}, beqVals a b = true → a = b
  | [], [], _ => rfl
  | v :: a, v' :: b, h => by
      simp only [beqVals, Bool.and_eq_true] at h
      obtain ⟨hv, ht⟩ := h
      have h1 : v = v' := JVal.eq_of_beq hv
      have h2 : a = b := eqVals_of_beq ht
      simp [h1, h2]

end

mutual

theorem JVal.beq_refl : ∀ (a : JVal), JVal.beq a a = true
  | .null => rfl
  | .undef => rfl
  | .nan => rfl
  | .bool _ => by simp [JVal.beq]
  | .num _ => by simp [JVal.beq]
  | .str _ => by simp [JVal.beq]
  | .date _ => by simp [JVal.beq]
  | .obj a => beqFields_refl a
  | .arr a => beqVals_refl a

theorem beqFields_refl : ∀ (a : List (String × JVal)), beqFields a a = true
  | [] => rfl
  | (_, v) :: a => by
      simp only [beqFields, Bool.and_eq_true, beq_self_eq_true]
      exact ⟨⟨trivial, JVal.beq_refl v⟩, beqFields_refl a⟩

theorem beqVals_refl : ∀ (a : List JVal), beqVals a a = true
  | [] => rfl
  | v :: a => by
      simp only [beqVals, Bool.and_eq_true]
      exact ⟨JVal.beq_refl v, beqVals_refl a⟩

end

theorem JVal.beq_iff_eq {a b : JVal} : JVal.beq a b = true ↔ a = b :=
  ⟨JVal.eq_of_beq, fun h => h ▸ JVal.beq_refl a⟩

instance : DecidableEq JVal := fun a b =>
  decidable_of_iff (JVal.beq a b = true) JVal.beq_iff_eq

/-- A stored document / object literal: an insertion-ordered field list. -/
abbrev Doc := List (String × JVal)

/-- JS property access `o[k]`: first binding wins, absent fields read as
`undefined`. -/
def getF (d : Doc) (k : String) : JVal :=
  match d.find? (fun p => p.1 == k) with
  | some p => p.2
  | none => JVal.undef

/-- Property access on an arbitrary value: non-objects have none of the
properties this code reads. -/
def getV (v : JVal) (k : String) : JVal :=
  match v with
  | .obj fs => getF fs k
  | _ => JVal.undef

/-- The field list of a value, as used by object spread `{...v}`: spreading a
non-object contributes no enumerable fields (the primitives spread here never
have own enumerable properties). -/
def docOf (v : JVal) : Doc :=
  match v with
  | .obj fs => fs
  | _ => []

/-- JS truthiness. -/
def truthy (v : JVal) : Bool :=
  match v with
  | .null | .undef | .nan => false
  | .bool b => b
  | .num q => q != 0
  | .str s => s != ""
  | .date _ => true
  | .obj _ => true
  | .arr _ => true

/-- JS `a || b`. -/
def jsOr (a b : JVal) : JVal := if truthy a then a else b

/-- JS `a ?? b`. -/
def jsNullish (a b : JVal) : JVal :=
  match a with
  | .null => b
  | .undef => b
  | v => v

/-- Assign field `k := v` as in an object literal / `$set`: an existing binding
is overwritten in place, a new one is appended. -/
def setF (d : Doc) (k : String) (v : JVal) : Doc :=
  if d.any (fun p => p.1 == k) then
    d.map (fun p => if p.1 == k then (k, v) else p)
  else
    d ++ [(k, v)]

/-- Merge `upd` into `base`, later fields overriding: both object spread
`{...base, ...upd}` and MongoDB `$set` (all keys here are non-dotted). -/
def mergeDoc (base upd : Doc) : Doc :=
  upd.foldl (fun acc p => setF acc p.1 p.2) base

/-! ## BSON serialization

The MongoDB driver (default `ignoreUndefined: false`) serializes JS
`undefined` as BSON `null`, recursively, both in filters and in `$set`
documents. -/

mutual

/-- Driver-side conversion of a JS value to its stored BSON form. -/
def bsonVal : JVal → JVal
  | .undef => .null
  | .obj fs => .obj (bsonFields fs)
  | .arr xs => .arr (bsonList xs)
  | v => v

/-- `bsonVal` on each field of a document. -/
def bsonFields : List (String × JVal) → List (String × JVal)
  | [] => []
  | (k, v) :: t => (k, bsonVal v) :: bsonFields t

/-- `bsonVal` on each element of an array. -/
def bsonList : List JVal → List JVal
  | [] => []
  | v :: t => bsonVal v :: bsonList t

end

/-- MongoDB equality of a stored field value against a query value: a `null`
query value matches both stored `null` and a missing field (which `getF` reads
as `undef`); any other value matches by structural equality. -/
def mongoEqVal (dv qv : JVal) : Bool :=
  let q := bsonVal qv
  if q = .null then dv = .null || dv = .undef
  else JVal.beq dv q

/-- A document matches an equality-only filter iff every filter field
matches. -/
def mongoMatches (d : Doc) (filter : Doc) : Bool :=
  filter.all fun p => mongoEqVal (getF d p.1) p.2

/-- One `updateOne(filter, {$set: setDoc}, {upsert: true})` call. -/
structure Op where
  filter : Doc
  setDoc : Doc
  deriving Repr

/-- `$set` applied to the first document matching the filter. -/
def updateFirst (c : List Doc) (f s : Doc) : List Doc :=
  match c with
  | [] => []
  | d :: t => if mongoMatches d f then mergeDoc d (bsonFields s) :: t
              else d :: updateFirst t f s

/-- `updateOne` with `upsert`: update the first matching document in place, or
insert a new document built from the filter's equality fields plus the `$set`
fields. -/
def applyOp (c : List Doc) (o : Op) : List Doc :=
  if c.any (fun d => mongoMatches d o.filter) then updateFirst c o.filter o.setDoc
  else c ++ [mergeDoc (bsonFields o.filter) (bsonFields o.setDoc)]

/-- A sequence of upserts against one collection, in program order. -/
def applyOps (c : List Doc) (ops : List Op) : List Doc :=
  ops.foldl applyOp c

/-! ## JS coercions -/

/-- Decimal digits of the fractional part `rem/den`, up to `fuel` digits
(stopping early on exact termination).  JS prints the shortest decimal that
round-trips; this is exact for denominators dividing `10^fuel`, which covers
every numeric literal in this development. -/
def fracDigits (rem den : Nat) : Nat → String
  | 0 => ""
  | fuel + 1 =>
    if rem = 0 then ""
    else toString (rem * 10 / den) ++ fracDigits (rem * 10 % den) den fuel

/-- JS number-to-string: integers print without a decimal point (so
`String(5.0) = "5"`), other values in plain decimal notation. -/
def ratToString (q : Rat) : String :=
  if q.den = 1 then toString q.num
  else
    (if q.num < 0 then "-" else "") ++
      toString (q.num.natAbs / q.den) ++ "." ++
      fracDigits (q.num.natAbs % q.den) q.den 20

/-- Zero-padded numerals for ISO-8601 rendering. -/
def pad2 (n : Nat) : String := if n < 10 then "0" ++ toString n else toString n

/-- Three-digit millisecond field. -/
def pad3 (n : Nat) : String :=
  if n < 10 then "00" ++ toString n
  else if n < 100 then "0" ++ toString n
  else toString n

/-- Four-digit year field (years 0–9999; the expanded ±YYYYYY form for dates
outside that range is not exercised here). -/
def pad4 (n : Nat) : String :=
  if n < 10 then "000" ++ toString n
  else if n < 100 then "00" ++ toString n
  else if n < 1000 then "0" ++ toString n
  else toString n

/-- `Date.prototype.toISOString` from epoch milliseconds, via the standard
civil-from-days calendar algorithm. -/
def isoOfMillis (ms : Int) : String :=
  let days := Int.ediv ms 86400000
  let msod := (Int.emod ms 86400000).toNat
  let z := days + 719468
  let era := Int.ediv z 146097
  let doe := (Int.emod z 146097).toNat
  let yoe := (doe - doe / 1460 + doe / 36524 - doe / 146096) / 365
  let doy := doe - (365 * yoe + yoe / 4 - yoe / 100)
  let mp := (5 * doy + 2) / 153
  let day := doy - (153 * mp + 2) / 5 + 1
  let month := if mp < 10 then mp + 3 else mp - 9
  let year := (yoe : Int) + era * 400 + (if month ≤ 2 then 1 else 0)
  pad4 year.toNat ++ "-" ++ pad2 month ++ "-" ++ pad2 day ++ "T" ++
    pad2 (msod / 3600000) ++ ":" ++ pad2 (msod / 60000 % 60) ++ ":" ++
    pad2 (msod / 1000 % 60) ++ "." ++ pad3 (msod % 1000) ++ "Z"

mutual

/-- JS `String(v)` coercion.  `String(date)` (the human-readable, locale
format) is rendered as ISO here; the handlers only stringify a `Date` via
`toISOString`, never via `String`, so this case is not exercised. -/
def jsToString : JVal → String
  | .null => "null"
  | .undef => "undefined"
  | .nan => "NaN"
  | .bool b => if b then "true" else "false"
  | .num q => ratToString q
  | .str s => s
  | .date ms => isoOfMillis ms
  | .obj _ => "[object Object]"
  | .arr xs => joinVals xs

/-- `Array.prototype.toString`: comma-joined elements, with `null` and
`undefined` rendered empty. -/
def joinVals : List JVal → String
  | [] => ""
  | v :: t =>
    let s := match v with
      | .null => ""
      | .undef => ""
      | v => jsToString v
    match t with
    | [] => s
    | _ => s ++ "," ++ joinVals t

end

/-- Leading decimal digits of a character list, with the rest. -/
def leadDigits (cs : List Char) : Option (Nat × List Char) :=
  let ds := cs.takeWhile (·.isDigit)
  if ds.isEmpty then none
  else some (ds.foldl (fun a c => a * 10 + (c.toNat - 48)) 0,
             cs.dropWhile (·.isDigit))

/-- JS `parseInt(s)` (radix 10): skip leading spaces, optional sign, leading
digits; `none` models `NaN`.  (The `0x` prefix and exotic whitespace are not
exercised by the modelled strings.) -/
def jsParseIntOpt (s : String) : Option Int :=
  match s.data.dropWhile (fun c => c = ' ') with
  | '-' :: t => (leadDigits t).map (fun p => -(p.1 : Int))
  | '+' :: t => (leadDigits t).map (fun p => (p.1 : Int))
  | t => (leadDigits t).map (fun p => (p.1 : Int))

/-- Value of a digit list read left to right. -/
def digitsToNat (ds : List Char) : Nat :=
  ds.foldl (fun a c => a * 10 + (c.toNat - 48)) 0

/-- JS `parseFloat(s)`: optional sign, decimal digits with an optional
fractional part; `none` models `NaN`.  (Exponent notation is not produced by
the stringified numbers this is applied to.) -/
def jsParseFloatOpt (s : String) : Option Rat :=
  let cs := s.data.dropWhile (fun c => c = ' ')
  let (neg, cs) : Bool × List Char :=
    match cs with
    | '-' :: t => (true, t)
    | '+' :: t => (false, t)
    | t => (false, t)
  let ip := cs.takeWhile (fun c => c.isDigit)
  let rest := cs.dropWhile (fun c => c.isDigit)
  let (fp, any) : List Char × Bool :=
    match rest with
    | '.' :: t =>
        let f := t.takeWhile (fun c => c.isDigit)
        (f, !ip.isEmpty || !f.isEmpty)
    | _ => (([] : List Char), !ip.isEmpty)
  if any then
    let v : Rat := (digitsToNat ip : Rat) + (digitsToNat fp : Rat) / ((10 : Rat) ^ fp.length)
    some (if neg then -v else v)
  else none

/-- `v.toLowerCase()`: defined on strings, a `TypeError` (propagated as the
handler's 500 path) on anything else. -/
def jsToLowerOpt : JVal → Option String
  | .str s => some s.toLower
  | _ => none

/-! ## JS `Map` and `Set` (insertion-ordered, same-value-zero keys) -/

/-- `Map<JVal, JVal>` as an insertion-ordered association list. -/
abbrev VMap := List (JVal × JVal)

/-- `Map.prototype.get`, `undefined` (as `none`) when absent. -/
def mapGet (m : VMap) (k : JVal) : Option JVal :=
  (m.find? (fun p => JVal.beq p.1 k)).map (·.2)

/-- `Map.prototype.has`. -/
def mapHas (m : VMap) (k : JVal) : Bool :=
  m.any (fun p => JVal.beq p.1 k)

/-- `Map.prototype.set`: update in place keeping the original key and
position, else append. -/
def mapSet (m : VMap) (k v : JVal) : VMap :=
  if mapHas m k then m.map (fun p => if JVal.beq p.1 k then (p.1, v) else p)
  else m ++ [(k, v)]

/-- `Set.prototype.add` on a list-backed set (insertion order preserved, as
`Array.from(set)` relies on). -/
def setAdd (l : List JVal) (v : JVal) : List JVal :=
  if l.any (fun x => JVal.beq x v) then l else l ++ [v]

/-- `Option JVal` (a JS expression that may be `undefined` in the model's
optional form) back to a value. -/
def optToJVal : Option JVal → JVal
  | some v => v
  | none => JVal.undef

/-- `parseInt` coerced back into a JS number value (`NaN` when unparseable). -/
def parseIntJV (s : String) : JVal :=
  match jsParseIntOpt s with
  | some n => .num (n : Rat)
  | none => .nan

/-- The elements of a JS array value (non-arrays have none). -/
def arrElems (v : JVal) : List JVal :=
  match v with
  | .arr xs => xs
  | _ => []

/-- `Array.isArray`. -/
def isArrB (v : JVal) : Bool :=
  match v with
  | .arr _ => true
  | _ => false

/-! ## The document store -/

/-- The six collections the two handlers touch
(`src/index.js` lines 39–48). -/
structure DB where
  master_slips : List Doc
  generated_slips : List Doc
  generated_slip_legs : List Doc
  optimized_slips : List Doc
  master_slip_matches : List Doc
  matches_reg : List Doc
  deriving DecidableEq, Repr

/-! ## GET /api/placement-slips/:masterSlipId  (src/index.js 132–305) -/

/-- One leg of the externally-contracted placement response.  `match_id` and
`odds` are `parseInt`/`parseFloat` results; `none` models `NaN` (serialized as
JSON `null`). -/
structure MappedLeg where
  match_id : Option Int
  home_team : String
  away_team : String
  market : String
  selection : String
  odds : Option Rat
  deriving DecidableEq, Repr

/-- One slip of the placement response.  Numeric fields are
`parseFloat(String(...))` results with `none` for `NaN`; `confidence_score` is
deliberately a string (the legacy contract).  `diversity_score` is `none` for
the explicit `null` (absent or unparseable). -/
structure MappedSlip where
  slip_id : String
  master_slip_id : Option Int
  confidence_score : String
  total_odds : Option Rat
  stake : Option Rat
  estimated_return : Option Rat
  risk_category : String
  diversity_score : Option Rat
  created_at : String
  legs : List MappedLeg
  deriving DecidableEq, Repr

/-- The response envelope. -/
structure PlacementResponse where
  master_slip_id : Option Int
  engine_version : String
  generated_at : String
  slips : List MappedSlip
  deriving DecidableEq, Repr

/-- Outcome of the placement handler: 404, 500 (an exception such as the
`TypeError` from `.toLowerCase()` on a non-string), or the 200 body. -/
inductive PlacementResult where
  | notFound : PlacementResult
  | errorResp : PlacementResult
  | ok : PlacementResponse → PlacementResult
  deriving DecidableEq, Repr

/-- `generated_slip_legs.find({slip_id: slip.slip_id})` (line 163). -/
def legsOfSlip (db : DB) (slip : Doc) : List Doc :=
  db.generated_slip_legs.filter
    (fun d => mongoMatches d [("slip_id", getF slip "slip_id")])

/-- The `Set` of truthy `match_id`s over all legs of all slips
(lines 169–178), in insertion order. -/
def matchIdsOf (db : DB) (slips : List Doc) : List JVal :=
  slips.foldl
    (fun acc slip =>
      (legsOfSlip db slip).foldl
        (fun acc leg =>
          if truthy (getF leg "match_id") then setAdd acc (getF leg "match_id")
          else acc)
        acc)
    []

/-- Mongo `$in`. -/
def mongoInVals (dv : JVal) (vals : List JVal) : Bool :=
  vals.any (fun v => mongoEqVal dv v)

/-- `match_data.home_team || match_data.homeTeam || ""` (and the away
variant): snake_case key preferred over camelCase by truthiness, defaulting to
the empty string. -/
def resolveTeam (md : JVal) (snake camel : String) : JVal :=
  jsOr (getV md snake) (jsOr (getV md camel) (.str ""))

/-- Tier 1 query (lines 185–191): `master_slip_matches` scoped to
`parseInt(masterSlipId)` and `match_id ∈ matchIds`; skipped when no ids. -/
def tier1Docs (db : DB) (msid : String) (ids : List JVal) : List Doc :=
  if ids.length > 0 then
    db.master_slip_matches.filter
      (fun d => mongoEqVal (getF d "master_slip_id") (parseIntJV msid)
        && mongoInVals (getF d "match_id") ids)
  else []

/-- Tier 1 of the match resolver (lines 193–207): each hit with truthy
`match_data` contributes `{id, home_team, away_team}` keyed by its
`match_id`. -/
def tier1MapOf (db : DB) (msid : String) (ids : List JVal) : VMap :=
  (tier1Docs db msid ids).foldl
    (fun m d =>
      if truthy (getF d "match_data") then
        mapSet m (getF d "match_id")
          (.obj [("id", getF d "match_id"),
                 ("home_team", resolveTeam (getF d "match_data") "home_team" "homeTeam"),
                 ("away_team", resolveTeam (getF d "match_data") "away_team" "awayTeam")])
      else m)
    []

/-- The ids not resolved by tier 1 (lines 211–213). -/
def remainingIds (m : VMap) (ids : List JVal) : List JVal :=
  ids.filter (fun v => !mapHas m v)

/-- Tier 2 (lines 214–222): look the remaining ids up in the global `matches`
registry and store the whole stored document. -/
def tier2Add (db : DB) (m : VMap) (rem : List JVal) : VMap :=
  if rem.length > 0 then
    (db.matches_reg.filter (fun d => mongoInVals (getF d "id") rem)).foldl
      (fun m d => mapSet m (getF d "id") (.obj d)) m
  else m

/-- The full two-tier `matchesMap` (lines 182–222). -/
def matchesMapOf (db : DB) (msid : String) (ids : List JVal) : VMap :=
  let t1 := tier1MapOf db msid ids
  tier2Add db t1 (remainingIds t1 ids)

/-- One leg of the response (lines 258–270): the embedded `leg.match` snapshot
is preferred, else the resolver map, else an empty placeholder. -/
def mapLeg (mmap : VMap) (leg : Doc) : MappedLeg :=
  let mtch := jsOr (getF leg "match")
    (jsOr (optToJVal (mapGet mmap (getF leg "match_id"))) (.obj []))
  { match_id := jsParseIntOpt (jsToString (getF leg "match_id"))
  , home_team := jsToString (jsNullish (getV mtch "home_team") (.str ""))
  , away_team := jsToString (jsNullish (getV mtch "away_team") (.str ""))
  , market := jsToString (jsNullish (getF leg "market") (.str ""))
  , selection := jsToString (jsNullish (getF leg "selection") (.str ""))
  , odds := jsParseFloatOpt (jsToString (jsNullish (getF leg "odds") (.num 0))) }

/-- One slip of the response (lines 226–272).  `none` is the thrown
`TypeError` when the coalesced risk value is not a string. -/
def mapSlip (slip : Doc) (legs : List Doc) (mmap : VMap) : Option MappedSlip :=
  let er := jsNullish (getF slip "estimated_return")
    (jsNullish (getF slip "estimated_payout")
      (jsNullish (getF slip "possible_return") (.num 0)))
  match jsToLowerOpt (jsNullish (getF slip "risk_category")
      (jsNullish (getF slip "risk_level") (.str "unknown"))) with
  | none => none
  | some rc => some
    { slip_id := jsToString (jsOr (getF slip "slip_id") (jsOr (getF slip "id") (.str "")))
    , master_slip_id := jsParseIntOpt (jsToString (getF slip "master_slip_id"))
    , confidence_score := jsToString (jsNullish (getF slip "confidence_score") (.num 0))
    , total_odds := jsParseFloatOpt (jsToString (jsNullish (getF slip "total_odds") (.num 0)))
    , stake := jsParseFloatOpt (jsToString (jsNullish (getF slip "stake") (.num 0)))
    , estimated_return := jsParseFloatOpt (jsToString er)
    , risk_category := rc
    , diversity_score :=
        (match getF slip "diversity_score" with
         | .null => none
         | .undef => none
         | v => jsParseFloatOpt (jsToString v))
    , created_at :=
        (match jsNullish (getF slip "created_at") (getF slip "generated_at") with
         | .date ms => isoOfMillis ms
         | v => jsToString v)
    , legs := legs.map (mapLeg mmap) }

/-- The sort comparator (lines 274–285) as a boolean "a precedes-or-ties b":
`confidence_score` parsed descending, then `total_odds` descending, then
`slip_id` ascending (`localeCompare` modelled as code-unit order).  A `NaN`
key makes the comparator return `NaN`, which the sort treats as 0 (keep
order), hence `true`. -/
def jsSortLE (a b : MappedSlip) : Bool :=
  match jsParseFloatOpt a.confidence_score, jsParseFloatOpt b.confidence_score with
  | some x, some y =>
    if y ≠ x then decide (y < x)
    else
      match a.total_odds, b.total_odds with
      | some oa, some ob =>
        if ob ≠ oa then decide (ob < oa)
        else decide (a.slip_id ≤ b.slip_id)
      | _, _ => true
  | _, _ => true

/-- Stable insertion into a sorted run. -/
def orderedInsertB (le : MappedSlip → MappedSlip → Bool) (a : MappedSlip) :
    List MappedSlip → List MappedSlip
  | [] => [a]
  | b :: l => if le a b then a :: b :: l else b :: orderedInsertB le a l

/-- `Array.prototype.sort` is required by ECMAScript to produce a stable,
comparator-sorted permutation; stable insertion sort realizes that
contract. -/
def insertionSortB (le : MappedSlip → MappedSlip → Bool) :
    List MappedSlip → List MappedSlip
  | [] => []
  | a :: l => orderedInsertB le a (insertionSortB le l)

/-- `.sort(comparator)` of the mapped slips. -/
def sortSlips (l : List MappedSlip) : List MappedSlip := insertionSortB jsSortLE l

/-- The whole GET handler body (lines 132–305).  `now` is the clock read by
`new Date()` for the envelope; `engine_version` is the `"v1"` default. -/
def getPlacementSlips (db : DB) (msid : String) (now : Int) : PlacementResult :=
  match db.master_slips.find? (fun d => mongoMatches d [("master_slip_id", .str msid)]) with
  | none => .notFound
  | some master =>
    let slips := db.generated_slips.filter
      (fun d => mongoMatches d [("master_slip_id", .str msid)])
    let mmap := matchesMapOf db msid (matchIdsOf db slips)
    match slips.mapM (fun s => mapSlip s (legsOfSlip db s) mmap) with
    | none => .errorResp
    | some mapped =>
      .ok { master_slip_id := jsParseIntOpt (jsToString (getF master "master_slip_id"))
          , engine_version := "v1"
          , generated_at := isoOfMillis now
          , slips := sortSlips mapped }

/-! ## POST /api/sync-slips  (src/index.js 320–512) -/

/-- The per-entity-kind counters returned in the 200 body. -/
structure SyncCounts where
  master_slips : Nat
  generated_slips : Nat
  optimized_slips : Nat
  matches_count : Nat
  master_slip_matches : Nat
  deriving DecidableEq, Repr

/-- `String(master_slip.id || master_slip.master_slip_id)` (line 346). -/
def masterKeyOf (master : JVal) : String :=
  jsToString (jsOr (getV master "id") (getV master "master_slip_id"))

/-- `masterSlipData` (lines 344–348): the payload's `master_slip` spread, with
the normalized business key and a fresh `updated_at`. -/
def masterSlipDataOf (master : JVal) (now : Int) : Doc :=
  setF (setF (docOf master) "master_slip_id" (.str (masterKeyOf master)))
    "updated_at" (.date now)

/-- `String(slip.id || slip.slip_id || gen_<timestamp>_<random>)`
(lines 371–377); `freshId` is the synthesized identifier for this
iteration. -/
def slipIdOf (slip : JVal) (freshId : String) : String :=
  jsToString (jsOr (getV slip "id") (jsOr (getV slip "slip_id") (.str freshId)))

/-- `slipData` (lines 369–380). -/
def slipDataOf (slip : JVal) (masterKey sid : String) (now : Int) : Doc :=
  setF (setF (setF (docOf slip) "slip_id" (.str sid))
      "master_slip_id" (.str masterKey))
    "updated_at" (.date now)

/-- `legData` (lines 394–404). -/
def legDataOf (leg : JVal) (sid masterKey : String) (now : Int) : Doc :=
  setF (setF (setF (setF (setF (setF (setF (setF (docOf leg)
      "slip_id" (.str sid))
      "master_slip_id" (.str masterKey))
      "match_id" (getV leg "match_id"))
      "market" (getV leg "market"))
      "selection" (getV leg "selection"))
      "odds" (getV leg "odds"))
      "match" (jsOr (getV leg "match") .null))
    "updated_at" (.date now)

/-- Optimized-slip `slipData` (lines 425–429). -/
def optSlipDataOf (slip : JVal) (masterKey : String) (now : Int) : Doc :=
  setF (setF (docOf slip) "master_slip_id" (parseIntJV masterKey))
    "updated_at" (.date now)

/-- Master-slip-match `matchData` (lines 449–453). -/
def msmDataOf (m : JVal) (masterKey : String) (now : Int) : Doc :=
  setF (setF (docOf m) "master_slip_id" (parseIntJV masterKey))
    "updated_at" (.date now)

/-- `extractedMatch` (lines 466–477): `{id: match.match_id, home_team,
away_team}` with the whole `match_data` spread over it (so a `match_data` that
itself carries any of those keys overrides them). -/
def extractedMatchOf (m : JVal) : Doc :=
  mergeDoc
    [("id", getV m "match_id"),
     ("home_team", resolveTeam (getV m "match_data") "home_team" "homeTeam"),
     ("away_team", resolveTeam (getV m "match_data") "away_team" "awayTeam")]
    (docOf (getV m "match_data"))

/-- The body of one `generated_slips` iteration (lines 368–413): upsert the
slip by `slip_id`, then upsert each of its legs by the leg's `id`. -/
def syncGenSlip (db : DB) (masterKey : String) (now : Int) (slip : JVal)
    (sid : String) : DB :=
  let db := { db with
    generated_slips := applyOp db.generated_slips
      ⟨[("slip_id", .str sid)], slipDataOf slip masterKey sid now⟩ }
  if isArrB (getV slip "legs") then
    let ops := (arrElems (getV slip "legs")).map (fun leg =>
      (⟨[("id", getV leg "id")], legDataOf leg sid masterKey now⟩ : Op))
    { db with generated_slip_legs := applyOps db.generated_slip_legs ops }
  else db

/-- The body of one `matches` iteration (lines 448–486): upsert the
MasterSlipMatch by `id`, and, when `match_data` is truthy, upsert the
extracted canonical Match by the extracted `id`. -/
def syncMatch (db : DB) (masterKey : String) (now : Int) (m : JVal) : DB :=
  let db := { db with
    master_slip_matches := applyOp db.master_slip_matches
      ⟨[("id", getV m "id")], msmDataOf m masterKey now⟩ }
  if truthy (getV m "match_data") then
    let em := extractedMatchOf m
    { db with matches_reg := applyOp db.matches_reg ⟨[("id", getF em "id")], em⟩ }
  else db

/-- The whole POST handler body (lines 320–512).  `none` is the 400
`ValidationError` response; `now` is the clock and `fresh i` the synthesized
`gen_<timestamp>_<random>` identifier for iteration `i` of the
`generated_slips` loop. -/
def syncSlips (payload : Doc) (now : Int) (fresh : Nat → String) (db : DB) :
    Option (SyncCounts × DB) :=
  if !truthy (getF payload "master_slip") then none
  else
    let master := getF payload "master_slip"
    let masterKey := masterKeyOf master
    let db := { db with
      master_slips := applyOp db.master_slips
        ⟨[("master_slip_id", .str masterKey)], masterSlipDataOf master now⟩ }
    let gs := getF payload "generated_slips"
    let db :=
      if isArrB gs && (arrElems gs).length > 0 then
        (arrElems gs).enum.foldl
          (fun db p => syncGenSlip db masterKey now p.2 (slipIdOf p.2 (fresh p.1)))
          db
      else db
    let os := getF payload "optimized_slips"
    let db :=
      if isArrB os && (arrElems os).length > 0 then
        let ops := (arrElems os).map (fun slip =>
          (⟨[("id", getV slip "id"), ("master_slip_id", parseIntJV masterKey)],
            optSlipDataOf slip masterKey now⟩ : Op))
        { db with optimized_slips := applyOps db.optimized_slips ops }
      else db
    let ms := getF payload "matches"
    let db :=
      if isArrB ms && (arrElems ms).length > 0 then
        (arrElems ms).foldl (fun db m => syncMatch db masterKey now m) db
      else db
    some
      ({ master_slips := 1
       , generated_slips := if isArrB gs then (arrElems gs).length else 0
       , optimized_slips := if isArrB os then (arrElems os).length else 0
       , matches_count :=
           if isArrB ms then
             ((arrElems ms).filter (fun m => truthy (getV m "match_data"))).length
           else 0
       , master_slip_matches := if isArrB ms then (arrElems ms).length else 0 }, db)



/-! ## Ordering of the placement response (claim C1) -/

/-- The numeric sort key parsed from the serialized `confidence_score`
(`parseFloat` of the string; a `NaN` has no key and is read as 0 here, but the
sortedness statement below is only about slips whose keys parse). -/
def confKey (s : MappedSlip) : Rat := (jsParseFloatOpt s.confidence_score).getD 0

/-- The `total_odds` sort key. -/
def oddsKey (s : MappedSlip) : Rat := s.total_odds.getD 0

/-- The specified three-key order: `confidence_score` (parsed) descending,
then `total_odds` descending, then `slip_id` ascending. -/
def slipOrder (a b : MappedSlip) : Prop :=
  confKey b < confKey a ∨
    (confKey b = confKey a ∧
      (oddsKey b < oddsKey a ∨ (oddsKey b = oddsKey a ∧ a.slip_id ≤ b.slip_id)))

instance : DecidablePred (fun p : MappedSlip × MappedSlip => slipOrder p.1 p.2) :=
  fun _ => by unfold slipOrder; infer_instance

instance (a b : MappedSlip) : Decidable (slipOrder a b) := by
  unfold slipOrder; infer_instance

/-- A mapped slip whose two numeric sort keys are actual numbers (no `NaN`). -/
def cleanSlip (s : MappedSlip) : Prop :=
  (jsParseFloatOpt s.confidence_score).isSome ∧ s.total_odds.isSome

instance (s : MappedSlip) : Decidable (cleanSlip s) := by
  unfold cleanSlip; infer_instance

theorem slipOrder_trans {a b c : MappedSlip} (h1 : slipOrder a b)
    (h2 : slipOrder b c) : slipOrder a c := by
  unfold slipOrder at *
  rcases h1 with h1 | ⟨e1, h1⟩
  · rcases h2 with h2 | ⟨e2, h2⟩
    · exact Or.inl (lt_trans h2 h1)
    · exact Or.inl (e2 ▸ h1)
  · rcases h2 with h2 | ⟨e2, h2⟩
    · exact Or.inl (e1 ▸ h2)
    · refine Or.inr ⟨e2.trans e1, ?_⟩
      rcases h1 with h1 | ⟨f1, h1⟩
      · rcases h2 with h2 | ⟨f2, h2⟩
        · exact Or.inl (lt_trans h2 h1)
        · exact Or.inl (f2 ▸ h1)
      · rcases h2 with h2 | ⟨f2, h2⟩
        · exact Or.inl (f1 ▸ h2)
        · exact Or.inr ⟨f2.trans f1, le_trans h1 h2⟩

theorem jsSortLE_iff_slipOrder {a b : MappedSlip} (ha : cleanSlip a)
    (hb : cleanSlip b) : jsSortLE a b = true ↔ slipOrder a b := by
  obtain ⟨ha1, ha2⟩ := ha
  obtain ⟨hb1, hb2⟩ := hb
  obtain ⟨x, hx⟩ := Option.isSome_iff_exists.mp ha1
  obtain ⟨y, hy⟩ := Option.isSome_iff_exists.mp hb1
  obtain ⟨ox, hox⟩ := Option.isSome_iff_exists.mp ha2
  obtain ⟨oy, hoy⟩ := Option.isSome_iff_exists.mp hb2
  unfold jsSortLE slipOrder confKey oddsKey
  rw [hx, hy, hox, hoy]
  simp only [Option.getD_some]
  by_cases hxy : y = x
  · subst hxy
    rw [if_neg (by simp)]
    by_cases hoxy : oy = ox
    · subst hoxy
      rw [if_neg (by simp)]
      simp
    · rw [if_pos (by simpa using hoxy)]
      simp [hoxy, lt_irrefl]
  · rw [if_pos (by simpa using hxy)]
    simp [hxy]

theorem jsSortLE_total {a b : MappedSlip} (ha : cleanSlip a) (hb : cleanSlip b) :
    jsSortLE a b = true ∨ jsSortLE b a = true := by
  rw [jsSortLE_iff_slipOrder ha hb, jsSortLE_iff_slipOrder hb ha]
  unfold slipOrder
  rcases lt_trichotomy (confKey b) (confKey a) with h | h | h
  · exact Or.inl (Or.inl h)
  · rcases lt_trichotomy (oddsKey b) (oddsKey a) with h2 | h2 | h2
    · exact Or.inl (Or.inr ⟨h, Or.inl h2⟩)
    · cases le_total a.slip_id b.slip_id with
      | inl h3 => exact Or.inl (Or.inr ⟨h, Or.inr ⟨h2, h3⟩⟩)
      | inr h3 => exact Or.inr (Or.inr ⟨h.symm, Or.inr ⟨h2.symm, h3⟩⟩)
    · exact Or.inr (Or.inr ⟨h.symm, Or.inl h2⟩)
  · exact Or.inr (Or.inl h)

theorem mem_orderedInsertB {le : MappedSlip → MappedSlip → Bool}
    {a x : MappedSlip} {l : List MappedSlip} :
    x ∈ orderedInsertB le a l ↔ x = a ∨ x ∈ l := by
  induction l with
  | nil => simp [orderedInsertB]
  | cons b t ih =>
    unfold orderedInsertB
    by_cases h : le a b = true
    · simp [h]
    · simp only [if_neg h, List.mem_cons, ih]
      tauto

theorem mem_insertionSortB {le : MappedSlip → MappedSlip → Bool}
    {x : MappedSlip} {l : List MappedSlip} :
    x ∈ insertionSortB le l ↔ x ∈ l := by
  induction l with
  | nil => simp [insertionSortB]
  | cons b t ih =>
    unfold insertionSortB
    rw [mem_orderedInsertB]
    simp [ih]

theorem pairwise_orderedInsertB {a : MappedSlip} {l : List MappedSlip}
    (ha : cleanSlip a) (hl : ∀ x ∈ l, cleanSlip x)
    (hs : l.Pairwise slipOrder) :
    (orderedInsertB jsSortLE a l).Pairwise slipOrder := by
  induction l with
  | nil => simp [orderedInsertB]
  | cons b t ih =>
    have hb : cleanSlip b := hl b (List.mem_cons_self b t)
    have ht : ∀ x ∈ t, cleanSlip x := fun x hx => hl x (List.mem_cons_of_mem b hx)
    rw [List.pairwise_cons] at hs
    obtain ⟨hbt, hst⟩ := hs
    unfold orderedInsertB
    by_cases h : jsSortLE a b = true
    · rw [if_pos h]
      have hab : slipOrder a b := (jsSortLE_iff_slipOrder ha hb).mp h
      refine List.Pairwise.cons ?_ (List.Pairwise.cons hbt hst)
      intro x hx
      rcases List.mem_cons.mp hx with rfl | hx
      · exact hab
      · exact slipOrder_trans hab (hbt x hx)
    · rw [if_neg h]
      have hba : slipOrder b a := by
        rcases jsSortLE_total ha hb with h' | h'
        · exact absurd h' h
        · exact (jsSortLE_iff_slipOrder hb ha).mp h'
      refine List.Pairwise.cons ?_ (ih ht hst)
      intro x hx
      rcases mem_orderedInsertB.mp hx with rfl | hx
      · exact hba
      · exact hbt x hx

theorem pairwise_insertionSortB {l : List MappedSlip}
    (hl : ∀ x ∈ l, cleanSlip x) :
    (insertionSortB jsSortLE l).Pairwise slipOrder := by
  induction l with
  | nil => simp [insertionSortB]
  | cons a t ih =>
    have ha : cleanSlip a := hl a (List.mem_cons_self a t)
    have ht : ∀ x ∈ t, cleanSlip x := fun x hx => hl x (List.mem_cons_of_mem a hx)
    unfold insertionSortB
    exact pairwise_orderedInsertB ha
      (fun x hx => ht x (mem_insertionSortB.mp hx)) (ih ht)


/-! ## Claim C1 -/

/-- The spec's ordering example: slips `b`, `a` (confidence "80", odds 5.0)
and `c` (confidence "90", odds 1.0), stored in that order. -/
def orderExampleSlip (sid conf : String) (odds : Rat) : Doc :=
  [("slip_id", .str sid), ("master_slip_id", .str "1"),
   ("confidence_score", .str conf), ("total_odds", .num odds)]

/-- Store holding the spec's ordering example under master slip "1". -/
def orderExampleDB : DB :=
  { master_slips := [[("master_slip_id", .str "1")]]
  , generated_slips :=
      [orderExampleSlip "b" "80" 5, orderExampleSlip "a" "80" 5,
       orderExampleSlip "c" "90" 1]
  , generated_slip_legs := []
  , optimized_slips := []
  , master_slip_matches := []
  , matches_reg := [] }

/-- The mapped form of one ordering-example slip. -/
def orderExampleMapped (sid conf : String) (odds : Rat) : MappedSlip :=
  { slip_id := sid, master_slip_id := some 1, confidence_score := conf,
    total_odds := some odds, stake := some 0, estimated_return := some 0,
    risk_category := "unknown", diversity_score := none,
    created_at := "undefined", legs := [] }

/-- The expected response for the ordering example: order `c`, `a`, `b`. -/
def orderExampleResp : PlacementResponse :=
  { master_slip_id := some 1, engine_version := "v1",
    generated_at := isoOfMillis 0,
    slips := [orderExampleMapped "c" "90" 1, orderExampleMapped "a" "80" 5,
              orderExampleMapped "b" "80" 5] }

/-- **C1** (confirmed): every placement response's slip array is sorted by
parsed `confidence_score` descending, then `total_odds` descending, then
`slip_id` ascending (stated for slips whose two numeric keys parse, i.e. are
not `NaN`, which is what "comparing the values parsed as numbers" asserts);
and the spec's concrete example `[b, a, c]` is emitted in the order
`c, a, b`. -/
theorem C1_placement_response_sorted :
    (∀ (db : DB) (msid : String) (now : Int) (r : PlacementResponse),
        getPlacementSlips db msid now = .ok r →
        (∀ s ∈ r.slips, cleanSlip s) →
        r.slips.Pairwise slipOrder) ∧
      getPlacementSlips orderExampleDB "1" 0 = .ok orderExampleResp := by
  constructor
  · intro db msid now r h hclean
    unfold getPlacementSlips at h
    split at h
    · exact absurd h (by simp)
    · dsimp only at h
      split at h
      · exact absurd h (by simp)
      · rename_i mapped hmap
        cases h
        simp only at hclean ⊢
        exact pairwise_insertionSortB
          (fun x hx => hclean x (mem_insertionSortB.mpr hx))
  · with_unfolding_all rfl

/-- Witness for C1: the ordering example's response is produced and is sorted
in the three-key order. -/
theorem C1_placement_response_sorted_witness :
    getPlacementSlips orderExampleDB "1" 0 = .ok orderExampleResp ∧
      orderExampleResp.slips.Pairwise slipOrder :=
  ⟨C1_placement_response_sorted.2,
   C1_placement_response_sorted.1 orderExampleDB "1" 0 orderExampleResp
     C1_placement_response_sorted.2 (by with_unfolding_all decide)⟩


/-! ## Claim C2 -/

/-- A store with all six collections empty. -/
def emptyDB : DB :=
  { master_slips := [], generated_slips := [], generated_slip_legs := []
  , optimized_slips := [], master_slip_matches := [], matches_reg := [] }

/-- Counterexample to C2 as stated: a payload whose `master_slip` is present
but carries neither `id` nor `master_slip_id` is not rejected with 400 — the
sync succeeds and writes a MasterSlip keyed by the literal string
`"undefined"` (`String(undefined)`). -/
theorem C2_counterexample :
    syncSlips [("master_slip", .obj [])] 0 (fun _ => "g") emptyDB =
      some
        ({ master_slips := 1, generated_slips := 0, optimized_slips := 0
         , matches_count := 0, master_slip_matches := 0 },
         { emptyDB with master_slips :=
            [[("master_slip_id", .str "undefined"), ("updated_at", .date 0)]] }) := by
  with_unfolding_all rfl

/-- **C2 (amended)**: the sync responds 400 (`ValidationError`) iff the
payload's `master_slip` is absent (more precisely, falsy).  A present
`master_slip` object lacking both `id` and `master_slip_id` is accepted: its
business key becomes the string `"undefined"` and documents are written. -/
theorem C2_sync_validation :
    ∀ (payload : Doc) (now : Int) (fresh : Nat → String) (db : DB),
      syncSlips payload now fresh db = none ↔
        truthy (getF payload "master_slip") = false := by
  intro payload now fresh db
  unfold syncSlips
  by_cases h : truthy (getF payload "master_slip")
  · simp [h]
  · simp [h]

/-! ## Claims C6 / C10: field coalescing in the mapped slip -/

/-- Whether a read field is `null` or missing. -/
def isNullOrMissing (v : JVal) : Bool :=
  match v with
  | .null => true
  | .undef => true
  | _ => false

/-- Modelled from the spec's words: "the first non-null of" the named stored
fields, "else" the default — the first field that is present and non-null
(a missing field is not a stored value), else the default. -/
def firstNonNull (d : Doc) (keys : List String) (dflt : JVal) : JVal :=
  match keys with
  | [] => dflt
  | k :: t =>
    if isNullOrMissing (getF d k) then firstNonNull d t dflt else getF d k

theorem firstNonNull_cons (d : Doc) (k : String) (t : List String) (dflt : JVal) :
    firstNonNull d (k :: t) dflt = jsNullish (getF d k) (firstNonNull d t dflt) := by
  show (if isNullOrMissing (getF d k) then firstNonNull d t dflt else getF d k) = _
  cases h : getF d k <;> simp [isNullOrMissing, jsNullish]

/-- **C6** (confirmed): in every successfully mapped slip, the emitted
`estimated_return` is `parseFloat(String(x))` where `x` is the first non-null
of the stored `estimated_return`, `estimated_payout`, `possible_return`, else
`0`; and whenever the first non-null of `risk_category`, `risk_level`, else
`"unknown"` is a string `s`, the emitted `risk_category` is `s` lower-cased. -/
theorem C6_field_coalescing :
    ∀ (slip : Doc) (legs : List Doc) (mmap : VMap) (ms : MappedSlip),
      mapSlip slip legs mmap = some ms →
      ms.estimated_return =
        jsParseFloatOpt (jsToString
          (firstNonNull slip
            ["estimated_return", "estimated_payout", "possible_return"] (.num 0))) ∧
      ∀ s : String,
        firstNonNull slip ["risk_category", "risk_level"] (.str "unknown") = .str s →
        ms.risk_category = s.toLower := by
  intro slip legs mmap ms h
  have her :
      firstNonNull slip
          ["estimated_return", "estimated_payout", "possible_return"] (.num 0) =
        jsNullish (getF slip "estimated_return")
          (jsNullish (getF slip "estimated_payout")
            (jsNullish (getF slip "possible_return") (.num 0))) := by
    rw [firstNonNull_cons, firstNonNull_cons, firstNonNull_cons]
    rfl
  have hrc :
      firstNonNull slip ["risk_category", "risk_level"] (.str "unknown") =
        jsNullish (getF slip "risk_category")
          (jsNullish (getF slip "risk_level") (.str "unknown")) := by
    rw [firstNonNull_cons, firstNonNull_cons]
    rfl
  unfold mapSlip at h
  split at h
  · exact absurd h (by simp)
  · rename_i rc hlow
    cases h
    refine ⟨by rw [her], ?_⟩
    intro s hs
    rw [hrc] at hs
    rw [hs] at hlow
    simp [jsToLowerOpt] at hlow
    exact hlow.symm

/-- Witness for C6: a slip with only `possible_return: 42` yields
`estimated_return = 42`, and `risk_level: "HIGH"` with no `risk_category`
yields `risk_category = "high"`. -/
theorem C6_field_coalescing_witness :
    ∃ ms : MappedSlip,
      mapSlip [("possible_return", JVal.num 42), ("risk_level", JVal.str "HIGH")]
          [] [] = some ms ∧
      ms.estimated_return = some 42 ∧ ms.risk_category = "high" := by
  refine ⟨_, by with_unfolding_all rfl, ?_, ?_⟩
  · have h := (C6_field_coalescing
      [("possible_return", JVal.num 42), ("risk_level", JVal.str "HIGH")] [] [] _
      (by with_unfolding_all rfl)).1
    rw [h]
    with_unfolding_all rfl
  · have h := (C6_field_coalescing
      [("possible_return", JVal.num 42), ("risk_level", JVal.str "HIGH")] [] [] _
      (by with_unfolding_all rfl)).2 "HIGH" (by with_unfolding_all rfl)
    rw [h]
    with_unfolding_all rfl

/-! ## Claim C7 -/

/-- **C7** (confirmed): a leg with no usable (truthy) embedded `match`
snapshot whose `match_id` is not in the resolver map is still emitted with
`home_team = ""` and `away_team = ""`; and the mappeds slip always carries
exactly one output leg per stored leg (legs are never dropped). -/
theorem C7_unresolved_leg_tolerated :
    (∀ (mmap : VMap) (leg : Doc),
        truthy (getF leg "match") = false →
        mapGet mmap (getF leg "match_id") = none →
        (mapLeg mmap leg).home_team = "" ∧ (mapLeg mmap leg).away_team = "") ∧
      ∀ (slip : Doc) (legs : List Doc) (mmap : VMap) (ms : MappedSlip),
        mapSlip slip legs mmap = some ms → ms.legs.length = legs.length := by
  constructor
  · intro mmap leg h1 h2
    unfold mapLeg
    rw [h2]
    simp only [optToJVal]
    unfold jsOr
    rw [h1]
    exact ⟨rfl, rfl⟩
  · intro slip legs mmap ms h
    unfold mapSlip at h
    split at h
    · exact absurd h (by simp)
    · cases h
      simp

/-- Witness for C7: a leg referencing the unresolvable `match_id` 42 against
an empty resolver map. -/
theorem C7_unresolved_leg_tolerated_witness :
    (mapLeg [] [("match_id", JVal.num 42)]).home_team = "" ∧
      (mapLeg [] [("match_id", JVal.num 42)]).away_team = "" :=
  C7_unresolved_leg_tolerated.1 [] [("match_id", JVal.num 42)]
    (by with_unfolding_all rfl) (by with_unfolding_all rfl)

/-! ## Claim C10 -/

/-- **C10** (confirmed): when a stored slip has neither `created_at` nor
`generated_at`, the emitted `created_at` is the literal string `"undefined"`
(no error, not `null`); only a native `Date` is reformatted (to ISO-8601), and
any non-`Date` coalesced value passes through `String(...)` unchanged. -/
theorem C10_created_at_coercion :
    ∀ (slip : Doc) (legs : List Doc) (mmap : VMap) (ms : MappedSlip),
      mapSlip slip legs mmap = some ms →
      (getF slip "created_at" = .undef → getF slip "generated_at" = .undef →
        ms.created_at = "undefined") ∧
      (∀ t : Int,
        jsNullish (getF slip "created_at") (getF slip "generated_at") = .date t →
        ms.created_at = isoOfMillis t) ∧
      ∀ v : JVal,
        jsNullish (getF slip "created_at") (getF slip "generated_at") = v →
        (∀ t : Int, v ≠ .date t) → ms.created_at = jsToString v := by
  intro slip legs mmap ms h
  unfold mapSlip at h
  split at h
  · exact absurd h (by simp)
  · cases h
    refine ⟨?_, ?_, ?_⟩
    · intro h1 h2
      simp only [h1, h2]
      rfl
    · intro t ht
      simp only [ht]
    · intro v hv hnd
      simp only [hv]

/-- Witness for C10: a slip document with neither timestamp field. -/
theorem C10_created_at_coercion_witness :
    ∃ ms : MappedSlip,
      mapSlip [("slip_id", JVal.str "x")] [] [] = some ms ∧
        ms.created_at = "undefined" := by
  refine ⟨_, by with_unfolding_all rfl, ?_⟩
  exact (C10_created_at_coercion [("slip_id", JVal.str "x")] [] [] _
    (by with_unfolding_all rfl)).1 (by with_unfolding_all rfl) (by with_unfolding_all rfl)


/-! ## Claim C5: two-tier match resolution -/

theorem JVal.beq_eq_decide (a b : JVal) : JVal.beq a b = decide (a = b) := by
  by_cases h : a = b
  · subst h; simp [JVal.beq_refl]
  · simp only [h, decide_eq_false_iff_not]
    cases hb : JVal.beq a b
    · rfl
    · exact absurd (JVal.eq_of_beq hb) h

/-- A primitive (non-object, non-array) value; match ids in this system are
numbers or strings. -/
def primVal (v : JVal) : Bool :=
  match v with
  | .obj _ => false
  | .arr _ => false
  | _ => true

theorem bsonVal_prim {v : JVal} (hp : primVal v = true) (hu : v ≠ .undef) :
    bsonVal v = v := by
  cases v <;> first
    | rfl
    | exact absurd rfl hu
    | exact absurd hp (by simp [primVal])

theorem mongoEqVal_prim {dv v : JVal} (hp : primVal v = true)
    (ht : truthy v = true) (h : mongoEqVal dv v = true) : dv = v := by
  have hu : v ≠ .undef := by rintro rfl; simp [truthy] at ht
  have hb := bsonVal_prim hp hu
  unfold mongoEqVal at h
  rw [hb] at h
  by_cases hn : v = JVal.null
  · rw [hn] at ht; simp [truthy] at ht
  · rw [if_neg hn] at h
    exact JVal.eq_of_beq h

theorem mapGet_nil (mid : JVal) : mapGet [] mid = none := rfl

theorem mapGet_cons (p : JVal × JVal) (t : VMap) (mid : JVal) :
    mapGet (p :: t) mid =
      if JVal.beq p.1 mid = true then some p.2 else mapGet t mid := by
  unfold mapGet
  rw [List.find?_cons]
  by_cases h : JVal.beq p.1 mid = true
  · simp [h]
  · simp [h]

theorem mapGet_map_replace (m : VMap) (k v mid : JVal)
    (h : JVal.beq k mid = false) :
    mapGet (m.map (fun p => if JVal.beq p.1 k = true then (p.1, v) else p)) mid
      = mapGet m mid := by
  induction m with
  | nil => rfl
  | cons p t ih =>
    rw [List.map_cons]
    by_cases hp : JVal.beq p.1 k = true
    · rw [if_pos hp, mapGet_cons, mapGet_cons]
      by_cases hm : JVal.beq p.1 mid = true
      · exfalso
        have h1 := JVal.eq_of_beq hp
        have h2 := JVal.eq_of_beq hm
        rw [← h1, h2, JVal.beq_refl mid] at h
        exact absurd h (by simp)
      · rw [if_neg hm, if_neg hm]
        exact ih
    · rw [if_neg hp, mapGet_cons, mapGet_cons]
      by_cases hm : JVal.beq p.1 mid = true
      · rw [if_pos hm, if_pos hm]
      · rw [if_neg hm, if_neg hm]
        exact ih

theorem mapGet_append_single_ne (m : VMap) (k v mid : JVal)
    (h : JVal.beq k mid = false) :
    mapGet (m ++ [(k, v)]) mid = mapGet m mid := by
  induction m with
  | nil =>
    rw [List.nil_append, mapGet_cons]
    simp [h, mapGet_nil]
  | cons p t ih =>
    rw [List.cons_append, mapGet_cons, mapGet_cons]
    by_cases hm : JVal.beq p.1 mid = true
    · rw [if_pos hm, if_pos hm]
    · rw [if_neg hm, if_neg hm]
      exact ih

theorem mapGet_mapSet_ne (m : VMap) {k mid : JVal} (h : k ≠ mid) (v : JVal) :
    mapGet (mapSet m k v) mid = mapGet m mid := by
  have hb : JVal.beq k mid = false := by
    rw [JVal.beq_eq_decide]; exact decide_eq_false h
  unfold mapSet
  by_cases hm : mapHas m k
  · rw [if_pos hm]
    exact mapGet_map_replace m k v mid hb
  · rw [if_neg hm]
    exact mapGet_append_single_ne m k v mid hb

theorem mapGet_mapSet_same (m : VMap) (k v : JVal) :
    mapGet (mapSet m k v) k = some v := by
  unfold mapSet
  by_cases hm : mapHas m k
  · rw [if_pos hm]
    unfold mapHas at hm
    induction m with
    | nil => simp at hm
    | cons p t ih =>
      rw [List.map_cons]
      by_cases hp : JVal.beq p.1 k = true
      · rw [if_pos hp, mapGet_cons]
        simp [hp]
      · rw [if_neg hp, mapGet_cons, if_neg hp]
        simp only [List.any_cons, hp, Bool.false_or] at hm
        exact ih hm
  · rw [if_neg hm]
    have hnone : mapGet m k = none := by
      unfold mapHas at hm
      unfold mapGet
      cases hf : List.find? (fun p => JVal.beq p.1 k) m with
      | none => rfl
      | some p =>
        exfalso
        apply hm
        exact List.any_eq_true.mpr
          ⟨p, List.mem_of_find?_eq_some hf, by simpa using List.find?_some hf⟩
    induction m with
    | nil =>
      rw [List.nil_append, mapGet_cons]
      simp [JVal.beq_refl]
    | cons p t ih =>
      rw [List.cons_append, mapGet_cons]
      rw [mapGet_cons] at hnone
      by_cases hp : JVal.beq p.1 k = true
      · rw [if_pos hp] at hnone
        exact absurd hnone (by simp)
      · rw [if_neg hp] at hnone
        rw [if_neg hp]
        have hm' : ¬ mapHas t k = true := by
          unfold mapHas at hm ⊢
          simp only [List.any_cons] at hm
          intro hc
          exact hm (by rw [hc]; simp)
        exact ih hm' hnone

theorem mapGet_mapSet_cases (m : VMap) (k mid v : JVal) {r : JVal}
    (h : mapGet (mapSet m k v) mid = some r) :
    (k = mid ∧ r = v) ∨ mapGet m mid = some r := by
  by_cases hk : k = mid
  · subst hk
    rw [mapGet_mapSet_same m k v] at h
    exact Or.inl ⟨rfl, (Option.some_inj.mp h).symm⟩
  · rw [mapGet_mapSet_ne m hk v] at h
    exact Or.inr h

theorem mapGet_foldl_preserve (docs : List Doc) (m : VMap) (mid r : JVal)
    (h : mapGet m mid = some r) (hne : ∀ d ∈ docs, getF d "id" ≠ mid) :
    mapGet (docs.foldl (fun m d => mapSet m (getF d "id") (.obj d)) m) mid
      = some r := by
  induction docs generalizing m with
  | nil => exact h
  | cons d t ih =>
    simp only [List.foldl_cons]
    exact ih (mapSet m (getF d "id") (.obj d))
      (by rw [mapGet_mapSet_ne m (hne d (List.mem_cons_self d t)) (.obj d)]; exact h)
      (fun x hx => hne x (List.mem_cons_of_mem d hx))

theorem mapGet_foldl_provenance (docs : List Doc) (m : VMap) (mid r : JVal)
    (h : mapGet (docs.foldl (fun m d => mapSet m (getF d "id") (.obj d)) m) mid
      = some r) :
    mapGet m mid = some r ∨ ∃ d ∈ docs, getF d "id" = mid ∧ r = .obj d := by
  induction docs generalizing m with
  | nil => exact Or.inl h
  | cons d t ih =>
    simp only [List.foldl_cons] at h
    rcases ih (mapSet m (getF d "id") (.obj d)) h with h' | ⟨d', hd', he, hr⟩
    · rcases mapGet_mapSet_cases m (getF d "id") mid (.obj d) h' with ⟨he, hr⟩ | h''
      · exact Or.inr ⟨d, List.mem_cons_self d t, he, hr⟩
      · exact Or.inl h''
    · exact Or.inr ⟨d', List.mem_cons_of_mem d hd', he, hr⟩


theorem mapHas_of_mapGet {m : VMap} {mid r : JVal}
    (h : mapGet m mid = some r) : mapHas m mid = true := by
  unfold mapGet at h
  unfold mapHas
  cases hf : List.find? (fun p => JVal.beq p.1 mid) m with
  | none => rw [hf] at h; simp at h
  | some p =>
    exact List.any_eq_true.mpr
      ⟨p, List.mem_of_find?_eq_some hf, by simpa using List.find?_some hf⟩

/-- **C5** (confirmed): (1) a match id resolved by the tier-1 scoped
MasterSlipMatch query keeps its tier-1 value in the final resolver map — the
global Match registry can never override it (stated for primitive, truthy
match ids, which is what `match_id: number` carries); (2) any resolver-map
value that did not come from tier 1 is a whole document of the global Match
registry stored under its `id`, i.e. only tier-1-unresolved ids are served
from the registry; (3) a leg with no embedded snapshot renders the
`home_team` of its resolver-map entry. -/
theorem C5_two_tier_resolution :
    (∀ (db : DB) (msid : String) (ids : List JVal) (mid r : JVal),
        (∀ v ∈ ids, truthy v = true ∧ primVal v = true) →
        mapGet (tier1MapOf db msid ids) mid = some r →
        mapGet (matchesMapOf db msid ids) mid = some r) ∧
    (∀ (db : DB) (msid : String) (ids : List JVal) (mid r : JVal),
        mapGet (matchesMapOf db msid ids) mid = some r →
        mapGet (tier1MapOf db msid ids) mid = some r ∨
          ∃ d ∈ db.matches_reg, getF d "id" = mid ∧ r = .obj d) ∧
    ∀ (mmap : VMap) (leg : Doc) (v : JVal),
        truthy (getF leg "match") = false →
        mapGet mmap (getF leg "match_id") = some v →
        truthy v = true →
        (mapLeg mmap leg).home_team =
          jsToString (jsNullish (getV v "home_team") (.str "")) := by
  refine ⟨?_, ?_, ?_⟩
  · intro db msid ids mid r hids h
    unfold matchesMapOf tier2Add
    dsimp only
    by_cases hrem : (remainingIds (tier1MapOf db msid ids) ids).length > 0
    · rw [if_pos hrem]
      apply mapGet_foldl_preserve _ _ _ _ h
      intro d hd
      have hd' := (List.mem_filter.mp hd).2
      simp only [mongoInVals, List.any_eq_true] at hd'
      obtain ⟨v, hv, hveq⟩ := hd'
      have hvids : v ∈ ids := (List.mem_filter.mp hv).1
      have hvt := (hids v hvids).1
      have hvp := (hids v hvids).2
      have : getF d "id" = v := mongoEqVal_prim hvp hvt hveq
      rw [this]
      intro hc
      subst hc
      have h1 : mapHas (tier1MapOf db msid ids) v = true := mapHas_of_mapGet h
      have h2 := (List.mem_filter.mp hv).2
      simp only [Bool.not_eq_true'] at h2
      rw [h1] at h2
      exact absurd h2 (by simp)
    · rw [if_neg hrem]
      exact h
  · intro db msid ids mid r h
    unfold matchesMapOf tier2Add at h
    dsimp only at h
    by_cases hrem : (remainingIds (tier1MapOf db msid ids) ids).length > 0
    · rw [if_pos hrem] at h
      rcases mapGet_foldl_provenance _ _ _ _ h with h' | ⟨d, hd, he, hr⟩
      · exact Or.inl h'
      · exact Or.inr ⟨d, (List.mem_filter.mp hd).1, he, hr⟩
    · rw [if_neg hrem] at h
      exact Or.inl h
  · intro mmap leg v h1 h2 h3
    unfold mapLeg
    rw [h2]
    simp only [optToJVal]
    unfold jsOr
    rw [h1, h3]
    simp

/-- The fallback-order example: match 7 is both a MasterSlipMatch of master
slip 1 (with `match_data.home_team = "A"`) and a global Match (with
`home_team = "B"`). -/
def fallbackExampleDB : DB :=
  { master_slips := [[("master_slip_id", .str "1")]]
  , generated_slips := []
  , generated_slip_legs := []
  , optimized_slips := []
  , master_slip_matches :=
      [[("id", .num 1), ("master_slip_id", .num 1), ("match_id", .num 7),
        ("match_data", .obj [("home_team", .str "A")])]]
  , matches_reg := [[("id", .num 7), ("home_team", .str "B")]] }

/-- Witness for C5: the resolver map serves `"A"` (tier 1) for match 7 even
though the registry stores `"B"`, and a snapshot-less leg renders `"A"`. -/
theorem C5_two_tier_resolution_witness :
    mapGet (matchesMapOf fallbackExampleDB "1" [JVal.num 7]) (JVal.num 7) =
      some (.obj [("id", JVal.num 7), ("home_team", JVal.str "A"),
                  ("away_team", JVal.str "")]) ∧
      (mapLeg (matchesMapOf fallbackExampleDB "1" [JVal.num 7])
          [("match_id", JVal.num 7)]).home_team = "A" := by
  have h1 := C5_two_tier_resolution.1 fallbackExampleDB "1" [JVal.num 7]
    (JVal.num 7)
    (.obj [("id", JVal.num 7), ("home_team", JVal.str "A"),
           ("away_team", JVal.str "")])
    (by intro v hv; constructor
        · cases hv with
          | head => with_unfolding_all rfl
          | tail _ h => exact absurd h (List.not_mem_nil v)
        · cases hv with
          | head => rfl
          | tail _ h => exact absurd h (List.not_mem_nil v))
    (by with_unfolding_all rfl)
  refine ⟨h1, ?_⟩
  have h2 := C5_two_tier_resolution.2.2
    (matchesMapOf fallbackExampleDB "1" [JVal.num 7]) [("match_id", JVal.num 7)]
    (.obj [("id", JVal.num 7), ("home_team", JVal.str "A"),
           ("away_team", JVal.str "")])
    (by with_unfolding_all rfl) (by rw [show getF [("match_id", JVal.num 7)] "match_id" = JVal.num 7 from rfl]; exact h1) rfl
  rw [h2]
  with_unfolding_all rfl


/-! ## Compositional form of the sync handler

Each collection of `DB` is an independent state component, so the interleaved
loops of `syncSlips` are equal to applying, per collection, the list of
upserts the loops issue in program order.  The lemmas below restate
`syncSlips` in that form. -/

/-- The generated-slip upsert of one `generated_slips` iteration (`p.1` is the
iteration index, `p.2` the entry). -/
def slipOpOf (p : Nat × JVal) (masterKey : String) (now : Int)
    (fresh : Nat → String) : Op :=
  ⟨[("slip_id", .str (slipIdOf p.2 (fresh p.1)))],
   slipDataOf p.2 masterKey (slipIdOf p.2 (fresh p.1)) now⟩

/-- The leg upserts of one `generated_slips` iteration. -/
def legOpsOf (slip : JVal) (sid masterKey : String) (now : Int) : List Op :=
  if isArrB (getV slip "legs") then
    (arrElems (getV slip "legs")).map
      (fun leg => ⟨[("id", getV leg "id")], legDataOf leg sid masterKey now⟩)
  else []

/-- The optimized-slip upsert of one `optimized_slips` iteration. -/
def optOpOf (slip : JVal) (masterKey : String) (now : Int) : Op :=
  ⟨[("id", getV slip "id"), ("master_slip_id", parseIntJV masterKey)],
   optSlipDataOf slip masterKey now⟩

/-- The MasterSlipMatch upsert of one `matches` iteration. -/
def msmOpOf (m : JVal) (masterKey : String) (now : Int) : Op :=
  ⟨[("id", getV m "id")], msmDataOf m masterKey now⟩

/-- The canonical-Match upsert(s) of one `matches` iteration (one when
`match_data` is truthy, none otherwise). -/
def matchRegOpsOf (m : JVal) : List Op :=
  if truthy (getV m "match_data") then
    [⟨[("id", getF (extractedMatchOf m) "id")], extractedMatchOf m⟩]
  else []

theorem applyOps_nil (c : List Doc) : applyOps c [] = c := rfl

theorem applyOps_cons (c : List Doc) (o : Op) (t : List Op) :
    applyOps c (o :: t) = applyOps (applyOp c o) t := rfl

theorem applyOps_append (c : List Doc) (a b : List Op) :
    applyOps c (a ++ b) = applyOps (applyOps c a) b :=
  List.foldl_append _ _ _ _

theorem syncGenSlip_eq (db : DB) (masterKey : String) (now : Int)
    (slip : JVal) (sid : String) :
    syncGenSlip db masterKey now slip sid =
      { db with
        generated_slips := applyOp db.generated_slips
          ⟨[("slip_id", .str sid)], slipDataOf slip masterKey sid now⟩
        generated_slip_legs := applyOps db.generated_slip_legs
          (legOpsOf slip sid masterKey now) } := by
  unfold syncGenSlip legOpsOf
  by_cases h : isArrB (getV slip "legs")
  · rw [if_pos h, if_pos h]
  · rw [if_neg h, if_neg h]
    rfl

theorem foldl_syncGenSlip (l : List (Nat × JVal)) (db : DB)
    (masterKey : String) (now : Int) (fresh : Nat → String) :
    l.foldl (fun db p => syncGenSlip db masterKey now p.2
        (slipIdOf p.2 (fresh p.1))) db =
      { db with
        generated_slips := applyOps db.generated_slips
          (l.map (fun p => slipOpOf p masterKey now fresh))
        generated_slip_legs := applyOps db.generated_slip_legs
          (l.bind (fun p =>
            legOpsOf p.2 (slipIdOf p.2 (fresh p.1)) masterKey now)) } := by
  induction l generalizing db with
  | nil => rfl
  | cons p t ih =>
    rw [List.foldl_cons, ih, syncGenSlip_eq]
    rw [show ((p :: t).bind (fun p =>
          legOpsOf p.2 (slipIdOf p.2 (fresh p.1)) masterKey now)) =
        legOpsOf p.2 (slipIdOf p.2 (fresh p.1)) masterKey now ++
          t.bind (fun p =>
            legOpsOf p.2 (slipIdOf p.2 (fresh p.1)) masterKey now) from rfl]
    rw [applyOps_append]
    rfl

theorem syncMatch_eq (db : DB) (masterKey : String) (now : Int) (m : JVal) :
    syncMatch db masterKey now m =
      { db with
        master_slip_matches := applyOp db.master_slip_matches
          (msmOpOf m masterKey now)
        matches_reg := applyOps db.matches_reg (matchRegOpsOf m) } := by
  unfold syncMatch matchRegOpsOf msmOpOf
  by_cases h : truthy (getV m "match_data")
  · rw [if_pos h, if_pos h]
    rfl
  · rw [if_neg h, if_neg h]
    rfl


theorem foldl_syncMatch (l : List JVal) (db : DB) (masterKey : String)
    (now : Int) :
    l.foldl (fun db m => syncMatch db masterKey now m) db =
      { db with
        master_slip_matches := applyOps db.master_slip_matches
          (l.map (fun m => msmOpOf m masterKey now))
        matches_reg := applyOps db.matches_reg
          (l.bind matchRegOpsOf) } := by
  induction l generalizing db with
  | nil => rfl
  | cons m t ih =>
    rw [List.foldl_cons, ih, syncMatch_eq]
    rw [show ((m :: t).bind matchRegOpsOf) =
        matchRegOpsOf m ++ t.bind matchRegOpsOf from rfl]
    rw [applyOps_append]
    rfl

/-- The `generated_slips` entries processed (empty unless a non-empty
array). -/
def genEntries (payload : Doc) : List JVal :=
  let gs := getF payload "generated_slips"
  if isArrB gs && (arrElems gs).length > 0 then arrElems gs else []

/-- The `optimized_slips` entries processed. -/
def optEntries (payload : Doc) : List JVal :=
  let os := getF payload "optimized_slips"
  if isArrB os && (arrElems os).length > 0 then arrElems os else []

/-- The `matches` entries processed. -/
def matchEntries (payload : Doc) : List JVal :=
  let ms := getF payload "matches"
  if isArrB ms && (arrElems ms).length > 0 then arrElems ms else []

/-- The per-collection upsert lists of a sync, in program order, and the
resulting state. -/
def syncStateOf (payload : Doc) (now : Int) (fresh : Nat → String)
    (db : DB) : DB :=
  let master := getF payload "master_slip"
  let masterKey := masterKeyOf master
  { master_slips := applyOp db.master_slips
      ⟨[("master_slip_id", .str masterKey)], masterSlipDataOf master now⟩
  , generated_slips := applyOps db.generated_slips
      ((genEntries payload).enum.map (fun p => slipOpOf p masterKey now fresh))
  , generated_slip_legs := applyOps db.generated_slip_legs
      ((genEntries payload).enum.bind (fun p =>
        legOpsOf p.2 (slipIdOf p.2 (fresh p.1)) masterKey now))
  , optimized_slips := applyOps db.optimized_slips
      ((optEntries payload).map (fun s => optOpOf s masterKey now))
  , master_slip_matches := applyOps db.master_slip_matches
      ((matchEntries payload).map (fun m => msmOpOf m masterKey now))
  , matches_reg := applyOps db.matches_reg
      ((matchEntries payload).bind matchRegOpsOf) }

/-- The counters of a successful sync. -/
def countsOf (payload : Doc) : SyncCounts :=
  { master_slips := 1
  , generated_slips :=
      if isArrB (getF payload "generated_slips") then
        (arrElems (getF payload "generated_slips")).length
      else 0
  , optimized_slips :=
      if isArrB (getF payload "optimized_slips") then
        (arrElems (getF payload "optimized_slips")).length
      else 0
  , matches_count :=
      if isArrB (getF payload "matches") then
        ((arrElems (getF payload "matches")).filter
          (fun m => truthy (getV m "match_data"))).length
      else 0
  , master_slip_matches :=
      if isArrB (getF payload "matches") then
        (arrElems (getF payload "matches")).length
      else 0 }

theorem syncSlips_eq (payload : Doc) (now : Int) (fresh : Nat → String)
    (db : DB) (h : truthy (getF payload "master_slip") = true) :
    syncSlips payload now fresh db =
      some (countsOf payload, syncStateOf payload now fresh db) := by
  unfold syncSlips
  rw [h]
  simp only [Bool.not_true, Bool.false_eq_true, if_false]
  unfold syncStateOf countsOf genEntries optEntries matchEntries
  by_cases hg : isArrB (getF payload "generated_slips") &&
      (arrElems (getF payload "generated_slips")).length > 0
  all_goals by_cases ho : isArrB (getF payload "optimized_slips") &&
      (arrElems (getF payload "optimized_slips")).length > 0
  all_goals by_cases hm : isArrB (getF payload "matches") &&
      (arrElems (getF payload "matches")).length > 0
  all_goals simp only [hg, ho, hm, if_pos, if_neg, if_true, if_false,
    foldl_syncGenSlip, foldl_syncMatch, applyOps_nil]
  all_goals rfl


/-! ## Document-level lemmas -/

/-- Whether a document carries a binding for `k`. -/
def hasF (d : Doc) (k : String) : Bool :=
  d.any (fun p => p.1 == k)

theorem getF_nil (k : String) : getF [] k = .undef := rfl

theorem getF_cons (p : String × JVal) (t : Doc) (k : String) :
    getF (p :: t) k = if p.1 == k then p.2 else getF t k := by
  unfold getF
  rw [List.find?_cons]
  by_cases h : p.1 == k
  · simp [h]
  · simp [h]

theorem getF_setF_ne (d : Doc) {k k' : String} (h : k' ≠ k) (v : JVal) :
    getF (setF d k v) k' = getF d k' := by
  have hk : (k == k') = false := by
    simp only [beq_eq_false_iff_ne, ne_eq]
    exact fun hc => h hc.symm
  unfold setF
  by_cases hm : d.any (fun p => p.1 == k)
  · rw [if_pos hm]
    clear hm
    induction d with
    | nil => rfl
    | cons p t ih =>
      rw [List.map_cons, getF_cons, getF_cons]
      by_cases hp : p.1 == k
      · have hp' : p.1 = k := by simpa using hp
        rw [if_pos hp]
        have h1 : ((k, v).1 == k') = false := hk
        have h2 : (p.1 == k') = false := by rw [hp']; exact hk
        rw [if_neg (by simp [h1]), if_neg (by simp [h2])]
        exact ih
      · rw [if_neg hp]
        by_cases hpk : p.1 == k'
        · rw [if_pos hpk, if_pos hpk]
        · rw [if_neg hpk, if_neg hpk]
          exact ih
  · rw [if_neg hm]
    clear hm
    induction d with
    | nil =>
      rw [List.nil_append, getF_cons]
      rw [if_neg (by simp [hk])]
    | cons p t ih =>
      rw [List.cons_append, getF_cons, getF_cons]
      by_cases hpk : p.1 == k'
      · rw [if_pos hpk, if_pos hpk]
      · rw [if_neg hpk, if_neg hpk]
        exact ih

theorem getF_setF_same (d : Doc) (k : String) (v : JVal) :
    getF (setF d k v) k = v := by
  unfold setF
  by_cases hm : d.any (fun p => p.1 == k)
  · rw [if_pos hm]
    induction d with
    | nil => simp at hm
    | cons p t ih =>
      rw [List.map_cons, getF_cons]
      by_cases hp : p.1 == k
      · rw [if_pos hp]
        simp
      · rw [if_neg hp]
        simp only [List.any_cons, hp, Bool.false_or] at hm
        rw [if_neg (by simp [hp])]
        exact ih hm
  · rw [if_neg hm]
    induction d with
    | nil =>
      rw [List.nil_append, getF_cons]
      simp
    | cons p t ih =>
      rw [List.cons_append, getF_cons]
      simp only [List.any_cons, Bool.or_eq_true, not_or] at hm
      rw [if_neg (by simpa using hm.1)]
      exact ih (by simpa [List.any_eq_true] using hm.2)

theorem any_keys_map_replace (d : Doc) (k : String) (v : JVal) (k' : String) :
    (d.map (fun p => if p.1 == k then (k, v) else p)).any (fun p => p.1 == k')
      = d.any (fun p => p.1 == k') := by
  induction d with
  | nil => rfl
  | cons p t ih =>
    rw [List.map_cons, List.any_cons, List.any_cons, ih]
    by_cases hp : p.1 == k
    · have hp' : p.1 = k := by simpa using hp
      rw [if_pos hp]
      show ((k == k') || _) = ((p.1 == k') || _)
      rw [hp']
    · rw [if_neg hp]

theorem hasF_setF (d : Doc) (k : String) (v : JVal) (k' : String) :
    hasF (setF d k v) k' = (hasF d k' || (k == k')) := by
  unfold hasF setF
  by_cases hm : d.any (fun p => p.1 == k)
  · rw [if_pos hm, any_keys_map_replace]
    by_cases hk : k == k'
    · have hk' : k = k' := by simpa using hk
      subst hk'
      simp [hm]
    · simp [hk]
  · rw [if_neg hm, List.any_append]
    simp

theorem mem_setF_of_ne {d : Doc} {k : String} {v : JVal} (k' : String)
    (v' : JVal) (h : (k, v) ∈ d) (hne : k ≠ k') :
    (k, v) ∈ setF d k' v' := by
  unfold setF
  by_cases hm : d.any (fun p => p.1 == k')
  · rw [if_pos hm]
    refine List.mem_map.mpr ⟨(k, v), h, ?_⟩
    rw [if_neg (by simpa using hne)]
  · rw [if_neg hm]
    exact List.mem_append_left _ h

theorem keys_setF (d : Doc) (k : String) (v : JVal) :
    (setF d k v).map (fun p => p.1) =
      if hasF d k then d.map (fun p => p.1)
      else d.map (fun p => p.1) ++ [k] := by
  unfold setF hasF
  by_cases hm : d.any (fun p => p.1 == k)
  · rw [if_pos hm, if_pos hm, List.map_map]
    apply List.map_congr_left
    intro p _
    by_cases hpk : p.1 == k
    · have : p.1 = k := by simpa using hpk
      simp [Function.comp, hpk, this]
    · simp [Function.comp, hpk]
  · rw [if_neg hm, if_neg hm]
    simp

theorem nodup_keys_setF {d : Doc} (k : String) (v : JVal)
    (h : (d.map (fun p => p.1)).Nodup) :
    ((setF d k v).map (fun p => p.1)).Nodup := by
  rw [keys_setF]
  by_cases hm : hasF d k
  · rw [if_pos hm]
    exact h
  · rw [if_neg hm]
    rw [List.nodup_append]
    refine ⟨h, List.nodup_singleton k, ?_⟩
    intro a ha hb
    have hak : a = k := by simpa using hb
    subst hak
    unfold hasF at hm
    apply hm
    obtain ⟨p, hp, he⟩ := List.mem_map.mp ha
    exact List.any_eq_true.mpr ⟨p, hp, by simp [he]⟩

theorem hasF_eq_false_iff (d : Doc) (k : String) :
    hasF d k = false ↔ k ∉ d.map (fun p => p.1) := by
  unfold hasF
  rw [← Bool.not_eq_true, List.any_eq_true]
  simp

theorem getF_mergeDoc_not_has (base upd : Doc) (k : String)
    (h : hasF upd k = false) :
    getF (mergeDoc base upd) k = getF base k := by
  induction upd generalizing base with
  | nil => rfl
  | cons p t ih =>
    unfold hasF at h
    simp only [List.any_cons, Bool.or_eq_false_iff] at h
    have step : getF (setF base p.1 p.2) k = getF base k :=
      getF_setF_ne base (fun hc => by simp [hc] at h) p.2
    show getF (mergeDoc (setF base p.1 p.2) t) k = getF base k
    rw [ih (setF base p.1 p.2) (by unfold hasF; exact h.2), step]

theorem getF_mergeDoc_mem (base : Doc) {upd : Doc} {k : String} {v : JVal}
    (h : (k, v) ∈ upd) (hnd : (upd.map (fun p => p.1)).Nodup) :
    getF (mergeDoc base upd) k = v := by
  induction upd generalizing base with
  | nil => exact absurd h (List.not_mem_nil _)
  | cons p t ih =>
    rw [List.map_cons, List.nodup_cons] at hnd
    rcases List.mem_cons.mp h with he | hmem
    · subst he
      have hts : hasF t k = false := by
        rw [hasF_eq_false_iff]
        exact hnd.1
      show getF (mergeDoc (setF base k v) t) k = v
      rw [getF_mergeDoc_not_has _ _ _ hts]
      exact getF_setF_same base k v
    · show getF (mergeDoc (setF base p.1 p.2) t) k = v
      exact ih (setF base p.1 p.2) hmem hnd.2

theorem keys_bsonFields (d : Doc) :
    (bsonFields d).map (fun p => p.1) = d.map (fun p => p.1) := by
  induction d with
  | nil => rfl
  | cons p t ih =>
    cases p with
    | mk k v =>
      show (k, bsonVal v).1 :: (bsonFields t).map (fun p => p.1) = _
      rw [ih]
      rfl

theorem hasF_bsonFields (d : Doc) (k : String) :
    hasF (bsonFields d) k = hasF d k := by
  by_cases h : hasF d k
  · rw [h, ← Bool.not_eq_false]
    intro hc
    rw [hasF_eq_false_iff, keys_bsonFields, ← hasF_eq_false_iff] at hc
    rw [hc] at h
    exact absurd h (by simp)
  · rw [Bool.not_eq_true] at h
    rw [h, hasF_eq_false_iff, keys_bsonFields, ← hasF_eq_false_iff]
    exact h

theorem mem_bsonFields {d : Doc} {k : String} {v : JVal} (h : (k, v) ∈ d) :
    (k, bsonVal v) ∈ bsonFields d := by
  induction d with
  | nil => exact absurd h (List.not_mem_nil _)
  | cons p t ih =>
    cases p with
    | mk k' v' =>
      rcases List.mem_cons.mp h with he | hmem
      · cases he
        exact List.mem_cons_self _ _
      · exact List.mem_cons_of_mem _ (ih hmem)

theorem mem_of_getF {d : Doc} {k : String} (h : hasF d k = true) :
    (k, getF d k) ∈ d := by
  induction d with
  | nil => simp [hasF] at h
  | cons p t ih =>
    rw [getF_cons]
    by_cases hp : p.1 == k
    · have hp' : p.1 = k := by simpa using hp
      rw [if_pos hp, ← hp']
      exact List.mem_cons_self p t
    · rw [if_neg hp]
      unfold hasF at h
      simp only [List.any_cons, hp, Bool.false_or] at h
      exact List.mem_cons_of_mem _ (ih h)

theorem any_of_find? {c : List Doc} {p : Doc → Bool} {d : Doc}
    (h : c.find? p = some d) : c.any p = true :=
  List.any_eq_true.mpr
    ⟨d, List.mem_of_find?_eq_some h, List.find?_some h⟩

theorem updateFirst_cons (x : Doc) (t : List Doc) (f s : Doc) :
    updateFirst (x :: t) f s =
      if mongoMatches x f then mergeDoc x (bsonFields s) :: t
      else x :: updateFirst t f s := rfl

/-- After updating the first filter match in place, it is still the first
match (provided the merged document still matches the filter). -/
theorem find?_updateFirst (c : List Doc) (f s : Doc) (d : Doc)
    (hd : c.find? (fun x => mongoMatches x f) = some d)
    (hstill : mongoMatches (mergeDoc d (bsonFields s)) f = true) :
    (updateFirst c f s).find? (fun x => mongoMatches x f) =
      some (mergeDoc d (bsonFields s)) := by
  induction c with
  | nil => simp at hd
  | cons x t ih =>
    rw [List.find?_cons] at hd
    rw [updateFirst_cons]
    by_cases hx : mongoMatches x f
    · rw [if_pos hx]
      simp only [hx] at hd
      have hdx : x = d := by simpa using hd
      subst hdx
      rw [List.find?_cons]
      simp only [hstill]
    · have hx' : mongoMatches x f = false := by simpa using hx
      rw [if_neg hx]
      simp only [hx'] at hd
      rw [List.find?_cons]
      simp only [hx']
      exact ih hd


/-! ## Claim C8 -/

/-- **C8** (confirmed): a sync whose `master_slip` payload omits `created_at`
never clears the stored `created_at` of the MasterSlip it upserts: the first
stored document matching the normalized business key keeps its `created_at`
unchanged, receives `updated_at = now`, and receives every provided payload
field (other than the overridden `master_slip_id`/`updated_at`) as its new
value.  (Payload objects have unique keys, as JSON objects do.) -/
theorem C8_sync_preserves_created_at :
    ∀ (payload : Doc) (now : Int) (fresh : Nat → String) (db : DB)
      (counts : SyncCounts) (db' : DB) (d : Doc),
      syncSlips payload now fresh db = some (counts, db') →
      db.master_slips.find?
        (fun x => mongoMatches x
          [("master_slip_id", .str (masterKeyOf (getF payload "master_slip")))])
        = some d →
      hasF (docOf (getF payload "master_slip")) "created_at" = false →
      ((docOf (getF payload "master_slip")).map (fun p => p.1)).Nodup →
      ∃ d',
        db'.master_slips.find?
          (fun x => mongoMatches x
            [("master_slip_id",
              .str (masterKeyOf (getF payload "master_slip")))]) = some d' ∧
        getF d' "created_at" = getF d "created_at" ∧
        getF d' "updated_at" = .date now ∧
        ∀ (k : String) (v : JVal),
          (k, v) ∈ docOf (getF payload "master_slip") →
          k ≠ "master_slip_id" → k ≠ "updated_at" → getF d' k = bsonVal v := by
  intro payload now fresh db counts db' d h hfind hno hnd
  have ht : truthy (getF payload "master_slip") = true := by
    by_contra hc
    rw [Bool.not_eq_true] at hc
    unfold syncSlips at h
    rw [hc] at h
    simp at h
  rw [syncSlips_eq payload now fresh db ht] at h
  have hdb' : db' = syncStateOf payload now fresh db :=
    (Prod.mk.injEq _ _ _ _ ▸ Option.some.inj h).2.symm
  subst hdb'
  have hsdoc : masterSlipDataOf (getF payload "master_slip") now =
      setF (setF (docOf (getF payload "master_slip")) "master_slip_id"
        (.str (masterKeyOf (getF payload "master_slip"))))
        "updated_at" (.date now) := rfl
  have hs1 : getF (masterSlipDataOf (getF payload "master_slip") now)
      "master_slip_id" = .str (masterKeyOf (getF payload "master_slip")) := by
    rw [hsdoc, getF_setF_ne _ (by decide), getF_setF_same]
  have hh1 : hasF (masterSlipDataOf (getF payload "master_slip") now)
      "master_slip_id" = true := by
    rw [hsdoc, hasF_setF, hasF_setF]
    simp
  have hndS : ((masterSlipDataOf (getF payload "master_slip") now).map
      (fun p => p.1)).Nodup := by
    rw [hsdoc]
    exact nodup_keys_setF _ _ (nodup_keys_setF _ _ hnd)
  have hndB : (((bsonFields (masterSlipDataOf (getF payload "master_slip") now)).map
      (fun p => p.1))).Nodup := by
    rw [keys_bsonFields]
    exact hndS
  have hmm : mongoMatches
      (mergeDoc d (bsonFields (masterSlipDataOf (getF payload "master_slip") now)))
      [("master_slip_id", .str (masterKeyOf (getF payload "master_slip")))]
      = true := by
    unfold mongoMatches
    simp only [List.all_cons, List.all_nil, Bool.and_true]
    have hmem : ("master_slip_id",
        getF (masterSlipDataOf (getF payload "master_slip") now) "master_slip_id")
        ∈ masterSlipDataOf (getF payload "master_slip") now := mem_of_getF hh1
    rw [hs1] at hmem
    have hmem' := mem_bsonFields hmem
    rw [getF_mergeDoc_mem d hmem' hndB]
    simp [mongoEqVal, bsonVal, JVal.beq_refl]
  have happ : (syncStateOf payload now fresh db).master_slips =
      updateFirst db.master_slips
        [("master_slip_id", .str (masterKeyOf (getF payload "master_slip")))]
        (masterSlipDataOf (getF payload "master_slip") now) := by
    show applyOp _ _ = _
    unfold applyOp
    rw [if_pos (any_of_find? hfind)]
  refine ⟨mergeDoc d (bsonFields (masterSlipDataOf (getF payload "master_slip") now)),
    by rw [happ]; exact find?_updateFirst _ _ _ d hfind hmm, ?_, ?_, ?_⟩
  · apply getF_mergeDoc_not_has
    rw [hasF_bsonFields, hsdoc, hasF_setF, hasF_setF, hno]
    decide
  · have hupd : getF (masterSlipDataOf (getF payload "master_slip") now)
        "updated_at" = .date now := by
      rw [hsdoc, getF_setF_same]
    have hmem : ("updated_at",
        getF (masterSlipDataOf (getF payload "master_slip") now) "updated_at")
        ∈ masterSlipDataOf (getF payload "master_slip") now :=
      mem_of_getF (by rw [hsdoc, hasF_setF]; simp)
    rw [hupd] at hmem
    have hmem' := mem_bsonFields hmem
    rw [show bsonVal (JVal.date now) = JVal.date now from rfl] at hmem'
    exact getF_mergeDoc_mem d hmem' hndB
  · intro k v hkv hk1 hk2
    have h1 : (k, v) ∈ masterSlipDataOf (getF payload "master_slip") now := by
      rw [hsdoc]
      exact mem_setF_of_ne _ _ (mem_setF_of_ne _ _ hkv hk1) hk2
    exact getF_mergeDoc_mem d (mem_bsonFields h1) hndB

/-- The C8 scenario: a stored MasterSlip "1" with `created_at`, and a sync
payload for the same key carrying `stake` but no `created_at`. -/
def keepCreatedPayload : Doc :=
  [("master_slip", .obj [("id", .num 1), ("stake", .num 10)])]

/-- Store for the C8 scenario. -/
def keepCreatedDB : DB :=
  { emptyDB with master_slips :=
      [[("master_slip_id", .str "1"), ("created_at", .date 5)]] }

/-- Witness for C8: after the sync, the stored document keeps
`created_at = Date(5)`, gets `updated_at = Date(7)`, and gets the provided
`stake`. -/
theorem C8_sync_preserves_created_at_witness :
    ∃ d',
      (syncStateOf keepCreatedPayload 7 (fun _ => "g")
          keepCreatedDB).master_slips.find?
        (fun x => mongoMatches x
          [("master_slip_id",
            .str (masterKeyOf (getF keepCreatedPayload "master_slip")))])
        = some d' ∧
      getF d' "created_at" = JVal.date 5 ∧
      getF d' "updated_at" = JVal.date 7 ∧
      getF d' "stake" = JVal.num 10 := by
  obtain ⟨d', h1, h2, h3, h4⟩ :=
    C8_sync_preserves_created_at keepCreatedPayload 7 (fun _ => "g")
      keepCreatedDB (countsOf keepCreatedPayload)
      (syncStateOf keepCreatedPayload 7 (fun _ => "g") keepCreatedDB)
      [("master_slip_id", .str "1"), ("created_at", .date 5)]
      (syncSlips_eq _ _ _ _ (by with_unfolding_all rfl))
      (by with_unfolding_all rfl)
      (by with_unfolding_all rfl)
      (by with_unfolding_all decide)
  refine ⟨d', h1, ?_, h3, ?_⟩
  · rw [h2]
    with_unfolding_all rfl
  · exact h4 "stake" (.num 10) (by with_unfolding_all decide)
      (by decide) (by decide)


/-! ## Effect of upsert sequences

An `Op` whose `$set` document agrees with its own filter (which every upsert
issued by the sync handler does) leaves behind a first-match document carrying
exactly its `$set` values, and upserts with disjoint filters do not disturb
each other's documents. -/

/-- The `$set` document never contradicts the op's own filter: wherever it
carries a filter key at all, it carries the filter's value. -/
def selfConsistent (o : Op) : Prop :=
  ∀ p ∈ o.filter, hasF o.setDoc p.1 = true → getF o.setDoc p.1 = p.2

/-- A well-formed op: self-consistent, with unique keys in both documents
(JS objects), and never filtering on `updated_at`. -/
def wfOp (o : Op) : Prop :=
  selfConsistent o ∧ (o.filter.map (fun p => p.1)).Nodup ∧
    (o.setDoc.map (fun p => p.1)).Nodup ∧
    ∀ p ∈ o.filter, p.1 ≠ "updated_at"

/-- No document can match both filters. -/
def filterDisjoint (f g : Doc) : Prop :=
  ∀ d : Doc, ¬(mongoMatches d f = true ∧ mongoMatches d g = true)

theorem bsonVal_ne_undef (v : JVal) : bsonVal v ≠ .undef := by
  cases v <;> simp [bsonVal]

theorem mongoEqVal_bson_self (v : JVal) : mongoEqVal (bsonVal v) v = true := by
  unfold mongoEqVal
  by_cases h : bsonVal v = .null
  · simp [h]
  · simp only [h, if_false]
    exact JVal.beq_refl _

theorem mongoEqVal_functional {dv v w : JVal} (h1 : mongoEqVal dv v = true)
    (h2 : mongoEqVal dv w = true) : bsonVal v = bsonVal w := by
  unfold mongoEqVal at h1 h2
  by_cases hv : bsonVal v = .null
  · by_cases hw : bsonVal w = .null
    · rw [hv, hw]
    · rw [if_pos hv] at h1
      rw [if_neg hw] at h2
      have hdv := JVal.eq_of_beq h2
      rcases (by simpa using h1 : dv = JVal.null ∨ dv = JVal.undef) with h | h
      · rw [h] at hdv
        exact absurd hdv.symm hw
      · rw [h] at hdv
        exact absurd hdv.symm (bsonVal_ne_undef w)
  · by_cases hw : bsonVal w = .null
    · rw [if_neg hv] at h1
      rw [if_pos hw] at h2
      have hdv := JVal.eq_of_beq h1
      rcases (by simpa using h2 : dv = JVal.null ∨ dv = JVal.undef) with h | h
      · rw [h] at hdv
        exact absurd hdv.symm hv
      · rw [h] at hdv
        exact absurd hdv.symm (bsonVal_ne_undef v)
    · rw [if_neg hv] at h1
      rw [if_neg hw] at h2
      rw [← JVal.eq_of_beq h1, ← JVal.eq_of_beq h2]

/-- Two single-key filters on the same key with different BSON values are
disjoint. -/
theorem filterDisjoint_single {k : String} {v w : JVal}
    (h : bsonVal v ≠ bsonVal w) :
    filterDisjoint [(k, v)] [(k, w)] := by
  intro d ⟨h1, h2⟩
  unfold mongoMatches at h1 h2
  simp only [List.all_cons, List.all_nil, Bool.and_true] at h1 h2
  exact h (mongoEqVal_functional h1 h2)

theorem getF_of_mem_nodup {d : Doc} {k : String} {v : JVal}
    (h : (k, v) ∈ d) (hnd : (d.map (fun p => p.1)).Nodup) : getF d k = v := by
  induction d with
  | nil => exact absurd h (List.not_mem_nil _)
  | cons p t ih =>
    rw [List.map_cons, List.nodup_cons] at hnd
    rw [getF_cons]
    rcases List.mem_cons.mp h with he | hmem
    · cases he
      rw [if_pos (by simp)]
    · by_cases hp : p.1 == k
      · exfalso
        apply hnd.1
        have : p.1 = k := by simpa using hp
        rw [this]
        exact List.mem_map.mpr ⟨(k, v), hmem, rfl⟩
      · rw [if_neg hp]
        exact ih hmem hnd.2

theorem getF_bsonFields (d : Doc) (k : String) :
    getF (bsonFields d) k =
      if hasF d k then bsonVal (getF d k) else .undef := by
  induction d with
  | nil => rfl
  | cons p t ih =>
    cases p with
    | mk k' v =>
      show getF ((k', bsonVal v) :: bsonFields t) k = _
      rw [getF_cons]
      by_cases hp : k' == k
      · rw [if_pos hp]
        have hh : hasF ((k', v) :: t) k = true := by simp [hasF, hp]
        rw [hh, if_pos rfl, getF_cons, if_pos hp]
      · rw [if_neg hp]
        have hh : hasF ((k', v) :: t) k = hasF t k := by simp [hasF, hp]
        rw [hh, ih]
        by_cases ht : hasF t k
        · rw [if_pos ht, if_pos ht, getF_cons, if_neg hp]
        · rw [if_neg ht, if_neg ht]

theorem hasF_mergeDoc_left {base : Doc} (upd : Doc) {k : String}
    (h : hasF base k = true) : hasF (mergeDoc base upd) k = true := by
  induction upd generalizing base with
  | nil => exact h
  | cons p t ih =>
    show hasF (mergeDoc (setF base p.1 p.2) t) k = true
    exact ih (by rw [hasF_setF, h]; simp)

theorem getF_mergeDoc_of_has (base : Doc) {upd : Doc} {k : String}
    (h : hasF upd k = true) (hnd : (upd.map (fun p => p.1)).Nodup) :
    getF (mergeDoc base upd) k = getF upd k :=
  getF_mergeDoc_mem base (mem_of_getF h) hnd

/-- `$set` of a self-consistent op preserves matching of its own filter. -/
theorem mongoMatches_after_set {d : Doc} {o : Op}
    (hw : wfOp o) (hd : mongoMatches d o.filter = true) :
    mongoMatches (mergeDoc d (bsonFields o.setDoc)) o.filter = true := by
  obtain ⟨hsc, _, hnds, _⟩ := hw
  unfold mongoMatches at hd ⊢
  rw [List.all_eq_true] at hd ⊢
  intro p hp
  by_cases hh : hasF o.setDoc p.1
  · have hb : hasF (bsonFields o.setDoc) p.1 = true := by
      rw [hasF_bsonFields]; exact hh
    rw [getF_mergeDoc_of_has _ hb (by rw [keys_bsonFields]; exact hnds)]
    rw [getF_bsonFields, if_pos hh, hsc p hp hh]
    exact mongoEqVal_bson_self p.2
  · rw [getF_mergeDoc_not_has _ _ _ (by rw [hasF_bsonFields, ← Bool.not_eq_true]; exact hh)]
    exact hd p hp

/-- The freshly inserted upsert document matches the op's filter. -/
theorem mongoMatches_insert {o : Op} (hw : wfOp o) :
    mongoMatches (mergeDoc (bsonFields o.filter) (bsonFields o.setDoc))
      o.filter = true := by
  obtain ⟨hsc, hndf, hnds, _⟩ := hw
  unfold mongoMatches
  rw [List.all_eq_true]
  intro p hp
  by_cases hh : hasF o.setDoc p.1
  · have hb : hasF (bsonFields o.setDoc) p.1 = true := by
      rw [hasF_bsonFields]; exact hh
    rw [getF_mergeDoc_of_has _ hb (by rw [keys_bsonFields]; exact hnds)]
    rw [getF_bsonFields, if_pos hh, hsc p hp hh]
    exact mongoEqVal_bson_self p.2
  · rw [getF_mergeDoc_not_has _ _ _ (by rw [hasF_bsonFields, ← Bool.not_eq_true]; exact hh)]
    have hhf : hasF o.filter p.1 = true := by
      unfold hasF
      exact List.any_eq_true.mpr ⟨p, hp, by simp⟩
    rw [getF_bsonFields, if_pos hhf]
    have : getF o.filter p.1 = p.2 := by
      apply getF_of_mem_nodup _ hndf
      cases p
      exact hp
    rw [this]
    exact mongoEqVal_bson_self p.2

theorem find?_eq_none_of_not_any {c : List Doc} {p : Doc → Bool}
    (h : ¬ c.any p = true) : c.find? p = none := by
  cases hf : c.find? p with
  | none => rfl
  | some d => exact absurd (any_of_find? hf) h

/-- An op with a filter disjoint from `g` does not change `g`'s first
match. -/
theorem applyOp_find?_frame {c : List Doc} {o : Op} {g : Doc}
    (hw : wfOp o) (hdisj : filterDisjoint o.filter g) :
    (applyOp c o).find? (fun d => mongoMatches d g) =
      c.find? (fun d => mongoMatches d g) := by
  unfold applyOp
  by_cases hany : c.any (fun d => mongoMatches d o.filter)
  · rw [if_pos hany]
    clear hany
    induction c with
    | nil => rfl
    | cons x t ih =>
      rw [updateFirst_cons]
      by_cases hx : mongoMatches x o.filter
      · rw [if_pos hx]
        have hxg : mongoMatches x g = false := by
          rw [← Bool.not_eq_true]
          exact fun hc => hdisj x ⟨hx, hc⟩
        have hmg : mongoMatches (mergeDoc x (bsonFields o.setDoc)) g = false := by
          rw [← Bool.not_eq_true]
          exact fun hc => hdisj _ ⟨mongoMatches_after_set hw hx, hc⟩
        rw [List.find?_cons, List.find?_cons]
        simp only [hxg, hmg]
      · rw [if_neg hx]
        rw [List.find?_cons, List.find?_cons]
        by_cases hxg : mongoMatches x g
        · simp only [hxg]
        · have hxg' : mongoMatches x g = false := by simpa using hxg
          simp only [hxg']
          exact ih
  · rw [if_neg hany]
    rw [List.find?_append]
    cases hf : c.find? (fun d => mongoMatches d g) with
    | some d => simp
    | none =>
      simp only [Option.none_or]
      have hng : mongoMatches (mergeDoc (bsonFields o.filter)
          (bsonFields o.setDoc)) g = false := by
        rw [← Bool.not_eq_true]
        exact fun hc => hdisj _ ⟨mongoMatches_insert hw, hc⟩
      rw [List.find?_cons]
      simp [hng]

/-- After a well-formed upsert, the eventual first match of the op's own
filter carries the op's `$set` values. -/
theorem applyOp_effect (c : List Doc) (o : Op) (hw : wfOp o) :
    ∃ d, (applyOp c o).find? (fun x => mongoMatches x o.filter) = some d ∧
      ∀ k : String, hasF o.setDoc k = true →
        getF d k = bsonVal (getF o.setDoc k) := by
  have hval : ∀ base : Doc, ∀ k : String, hasF o.setDoc k = true →
      getF (mergeDoc base (bsonFields o.setDoc)) k
        = bsonVal (getF o.setDoc k) := by
    intro base k hk
    rw [getF_mergeDoc_of_has _ (by rw [hasF_bsonFields]; exact hk)
      (by rw [keys_bsonFields]; exact hw.2.2.1)]
    rw [getF_bsonFields, if_pos hk]
  unfold applyOp
  by_cases hany : c.any (fun d => mongoMatches d o.filter)
  · rw [if_pos hany]
    cases hf : c.find? (fun d => mongoMatches d o.filter) with
    | none =>
      exfalso
      obtain ⟨x, hx, hpx⟩ := List.any_eq_true.mp hany
      rw [List.find?_eq_none] at hf
      have hfx : ¬ mongoMatches x o.filter = true := by simpa using hf x hx
      exact hfx hpx
    | some d0 =>
      have hstill := mongoMatches_after_set hw
        (by simpa using List.find?_some hf)
      exact ⟨mergeDoc d0 (bsonFields o.setDoc),
        find?_updateFirst c o.filter o.setDoc d0 hf hstill,
        hval d0⟩
  · rw [if_neg hany]
    refine ⟨mergeDoc (bsonFields o.filter) (bsonFields o.setDoc), ?_,
      hval (bsonFields o.filter)⟩
    rw [List.find?_append, find?_eq_none_of_not_any hany]
    simp only [Option.none_or]
    rw [List.find?_cons]
    simp [mongoMatches_insert hw]

/-- A sequence of ops all disjoint from `g` does not change `g`'s first
match. -/
theorem applyOps_find?_frame {c : List Doc} {ops : List Op} {g : Doc}
    (hw : ∀ o ∈ ops, wfOp o) (hdisj : ∀ o ∈ ops, filterDisjoint o.filter g) :
    (applyOps c ops).find? (fun d => mongoMatches d g) =
      c.find? (fun d => mongoMatches d g) := by
  induction ops generalizing c with
  | nil => rfl
  | cons o t ih =>
    rw [applyOps_cons]
    rw [ih (fun x hx => hw x (List.mem_cons_of_mem o hx))
      (fun x hx => hdisj x (List.mem_cons_of_mem o hx))]
    exact applyOp_find?_frame (hw o (List.mem_cons_self o t))
      (hdisj o (List.mem_cons_self o t))

/-- In the final state of a sequence of pairwise-disjoint well-formed
upserts, every op's first match carries that op's `$set` values. -/
theorem applyOps_effect (ops : List Op) (c : List Doc)
    (hw : ∀ o ∈ ops, wfOp o)
    (hdisj : List.Pairwise (fun o o' => filterDisjoint o.filter o'.filter) ops) :
    ∀ o ∈ ops, ∃ d,
      (applyOps c ops).find? (fun x => mongoMatches x o.filter) = some d ∧
      ∀ k : String, hasF o.setDoc k = true →
        getF d k = bsonVal (getF o.setDoc k) := by
  induction ops generalizing c with
  | nil => intro o ho; exact absurd ho (List.not_mem_nil o)
  | cons op t ih =>
    rw [List.pairwise_cons] at hdisj
    intro o ho
    rcases List.mem_cons.mp ho with rfl | hot
    · obtain ⟨d, hd, hp⟩ := applyOp_effect c o (hw o (List.mem_cons_self o t))
      refine ⟨d, ?_, hp⟩
      rw [applyOps_cons]
      rw [applyOps_find?_frame (fun x hx => hw x (List.mem_cons_of_mem o hx))
        ?_]
      · exact hd
      · intro x hx d0 ⟨hm1, hm2⟩
        exact hdisj.1 x hx d0 ⟨hm2, hm1⟩
    · rw [applyOps_cons]
      exact ih (applyOp c op) (fun x hx => hw x (List.mem_cons_of_mem op hx))
        hdisj.2 o hot


/-! ## Claim C4 -/

theorem getV_eq_getF_docOf (v : JVal) (k : String) :
    getV v k = getF (docOf v) k := by
  cases v <;> rfl

/-- A sync payload whose single generated slip has two legs, neither carrying
an `id`. -/
def idlessLegsPayload : Doc :=
  [("master_slip", .obj [("id", .num 1)]),
   ("generated_slips", .arr [.obj [("id", .str "s1"),
     ("legs", .arr [.obj [("match_id", .num 1), ("market", .str "m1")],
                    .obj [("match_id", .num 2), ("market", .str "m2")]])]])]

/-- Counterexample to C4 as stated: there is no composite `slip_id`+position
key — legs are upserted by `{id: leg.id}` alone, so the two distinct id-less
legs collapse into a single stored document (the second leg overwrote the
first under the shared `id: null` key). -/
theorem C4_counterexample :
    (match syncSlips idlessLegsPayload 0 (fun _ => "g") emptyDB with
     | some (_, db') => db'.generated_slip_legs.length
     | none => 0) = 1 := by
  with_unfolding_all rfl

/-- The legs processed by a sync, each paired with the normalized `slip_id`
of its owning generated-slip entry. -/
def payloadLegs (payload : Doc) (fresh : Nat → String) : List (JVal × String) :=
  (genEntries payload).enum.bind (fun p =>
    if isArrB (getV p.2 "legs") then
      (arrElems (getV p.2 "legs")).map (fun leg => (leg, slipIdOf p.2 (fresh p.1)))
    else [])

/-- The upsert one leg generates. -/
def legOpOf (q : JVal × String) (masterKey : String) (now : Int) : Op :=
  ⟨[("id", getV q.1 "id")], legDataOf q.1 q.2 masterKey now⟩

theorem legOps_eq (payload : Doc) (fresh : Nat → String) (masterKey : String)
    (now : Int) :
    (genEntries payload).enum.bind
        (fun p => legOpsOf p.2 (slipIdOf p.2 (fresh p.1)) masterKey now) =
      (payloadLegs payload fresh).map (fun q => legOpOf q masterKey now) := by
  unfold payloadLegs
  induction (genEntries payload).enum with
  | nil => rfl
  | cons p t ih =>
    rw [show ((p :: t).bind (fun p =>
        legOpsOf p.2 (slipIdOf p.2 (fresh p.1)) masterKey now)) =
      legOpsOf p.2 (slipIdOf p.2 (fresh p.1)) masterKey now ++
        t.bind (fun p => legOpsOf p.2 (slipIdOf p.2 (fresh p.1)) masterKey now)
      from rfl]
    rw [show ((p :: t).bind (fun p =>
        if isArrB (getV p.2 "legs") then
          (arrElems (getV p.2 "legs")).map
            (fun leg => (leg, slipIdOf p.2 (fresh p.1)))
        else [])) =
      (if isArrB (getV p.2 "legs") then
          (arrElems (getV p.2 "legs")).map
            (fun leg => (leg, slipIdOf p.2 (fresh p.1)))
        else []) ++
        t.bind (fun p =>
          if isArrB (getV p.2 "legs") then
            (arrElems (getV p.2 "legs")).map
              (fun leg => (leg, slipIdOf p.2 (fresh p.1)))
          else []) from rfl]
    rw [List.map_append, ih]
    congr 1
    unfold legOpsOf
    by_cases h : isArrB (getV p.2 "legs")
    · rw [if_pos h, if_pos h, List.map_map]
      rfl
    · rw [if_neg h, if_neg h]
      rfl

/-- The fields `legData` carries (`src/index.js` 394–404). -/
theorem legDataOf_fields (leg : JVal) (sid masterKey : String) (now : Int) :
    getF (legDataOf leg sid masterKey now) "slip_id" = .str sid ∧
    getF (legDataOf leg sid masterKey now) "master_slip_id" = .str masterKey ∧
    getF (legDataOf leg sid masterKey now) "match_id" = getV leg "match_id" ∧
    getF (legDataOf leg sid masterKey now) "market" = getV leg "market" ∧
    getF (legDataOf leg sid masterKey now) "selection" = getV leg "selection" ∧
    getF (legDataOf leg sid masterKey now) "odds" = getV leg "odds" ∧
    getF (legDataOf leg sid masterKey now) "match" =
      jsOr (getV leg "match") .null ∧
    getF (legDataOf leg sid masterKey now) "updated_at" = .date now := by
  unfold legDataOf
  refine ⟨?_, ?_, ?_, ?_, ?_, ?_, ?_, ?_⟩
  · rw [getF_setF_ne _ (by decide), getF_setF_ne _ (by decide),
      getF_setF_ne _ (by decide), getF_setF_ne _ (by decide),
      getF_setF_ne _ (by decide), getF_setF_ne _ (by decide),
      getF_setF_ne _ (by decide), getF_setF_same]
  · rw [getF_setF_ne _ (by decide), getF_setF_ne _ (by decide),
      getF_setF_ne _ (by decide), getF_setF_ne _ (by decide),
      getF_setF_ne _ (by decide), getF_setF_ne _ (by decide),
      getF_setF_same]
  · rw [getF_setF_ne _ (by decide), getF_setF_ne _ (by decide),
      getF_setF_ne _ (by decide), getF_setF_ne _ (by decide),
      getF_setF_ne _ (by decide), getF_setF_same]
  · rw [getF_setF_ne _ (by decide), getF_setF_ne _ (by decide),
      getF_setF_ne _ (by decide), getF_setF_ne _ (by decide), getF_setF_same]
  · rw [getF_setF_ne _ (by decide), getF_setF_ne _ (by decide),
      getF_setF_ne _ (by decide), getF_setF_same]
  · rw [getF_setF_ne _ (by decide), getF_setF_ne _ (by decide), getF_setF_same]
  · rw [getF_setF_ne _ (by decide), getF_setF_same]
  · rw [getF_setF_same]

theorem legDataOf_id (leg : JVal) (sid masterKey : String) (now : Int) :
    getF (legDataOf leg sid masterKey now) "id" = getV leg "id" ∧
    hasF (legDataOf leg sid masterKey now) "id" = hasF (docOf leg) "id" := by
  constructor
  · unfold legDataOf
    rw [getF_setF_ne _ (by decide), getF_setF_ne _ (by decide),
      getF_setF_ne _ (by decide), getF_setF_ne _ (by decide),
      getF_setF_ne _ (by decide), getF_setF_ne _ (by decide),
      getF_setF_ne _ (by decide), getF_setF_ne _ (by decide),
      getV_eq_getF_docOf]
  · unfold legDataOf
    rw [hasF_setF, hasF_setF, hasF_setF, hasF_setF, hasF_setF, hasF_setF,
      hasF_setF, hasF_setF]
    simp

theorem nodup_keys_legDataOf (leg : JVal) (sid masterKey : String)
    (now : Int) (hnd : ((docOf leg).map (fun p => p.1)).Nodup) :
    ((legDataOf leg sid masterKey now).map (fun p => p.1)).Nodup := by
  unfold legDataOf
  apply nodup_keys_setF
  apply nodup_keys_setF
  apply nodup_keys_setF
  apply nodup_keys_setF
  apply nodup_keys_setF
  apply nodup_keys_setF
  apply nodup_keys_setF
  apply nodup_keys_setF
  exact hnd

theorem wfOp_legOp (q : JVal × String) (masterKey : String) (now : Int)
    (hnd : ((docOf q.1).map (fun p => p.1)).Nodup) :
    wfOp (legOpOf q masterKey now) := by
  obtain ⟨hid, hhid⟩ := legDataOf_id q.1 q.2 masterKey now
  unfold wfOp legOpOf
  dsimp only
  refine ⟨?_, by simp, ?_, ?_⟩
  · intro p hp hh
    have hp' : p = ("id", getV q.1 "id") := by simpa using hp
    subst hp'
    exact hid
  · exact nodup_keys_legDataOf q.1 q.2 masterKey now hnd
  · intro p hp
    have hp' : p = ("id", getV q.1 "id") := by simpa using hp
    subst hp'
    show ("id" : String) ≠ "updated_at"
    decide

/-- **C4 (amended)**: every leg of every generated-slip entry is upserted
keyed by the leg's own `id` alone — `{id: leg.id}`, which is the BSON `null`
key when the leg has no `id`, so all id-less legs share one stored document
(no composite `slip_id`+position key exists).  The stored leg carries the
owning slip's normalized `slip_id`, the sync's `master_slip_id`, and
`match_id`/`market`/`selection`/`odds` (and `match` when truthy, else `null`)
copied from the leg.  Legs with pairwise-distinct ids never collapse: each
ends up in its own first-match document carrying its own values. -/
theorem C4_leg_upserts :
    (∀ (payload : Doc) (now : Int) (fresh : Nat → String) (db : DB)
        (counts : SyncCounts) (db' : DB),
        syncSlips payload now fresh db = some (counts, db') →
        db'.generated_slip_legs = applyOps db.generated_slip_legs
          ((payloadLegs payload fresh).map
            (fun q => legOpOf q (masterKeyOf (getF payload "master_slip")) now))) ∧
    (∀ (leg : JVal) (sid masterKey : String) (now : Int),
        getF (legDataOf leg sid masterKey now) "slip_id" = .str sid ∧
        getF (legDataOf leg sid masterKey now) "master_slip_id" = .str masterKey ∧
        getF (legDataOf leg sid masterKey now) "match_id" = getV leg "match_id" ∧
        getF (legDataOf leg sid masterKey now) "market" = getV leg "market" ∧
        getF (legDataOf leg sid masterKey now) "selection" = getV leg "selection" ∧
        getF (legDataOf leg sid masterKey now) "odds" = getV leg "odds" ∧
        getF (legDataOf leg sid masterKey now) "match" =
          jsOr (getV leg "match") .null) ∧
    ∀ (payload : Doc) (now : Int) (fresh : Nat → String) (db : DB)
      (counts : SyncCounts) (db' : DB),
      syncSlips payload now fresh db = some (counts, db') →
      (∀ q ∈ payloadLegs payload fresh, ((docOf q.1).map (fun p => p.1)).Nodup) →
      (payloadLegs payload fresh).Pairwise
        (fun q q' => bsonVal (getV q.1 "id") ≠ bsonVal (getV q'.1 "id")) →
      ∀ q ∈ payloadLegs payload fresh, ∃ d,
        db'.generated_slip_legs.find?
          (fun x => mongoMatches x [("id", getV q.1 "id")]) = some d ∧
        getF d "slip_id" = .str q.2 ∧
        getF d "master_slip_id" =
          .str (masterKeyOf (getF payload "master_slip")) ∧
        getF d "match_id" = bsonVal (getV q.1 "match_id") ∧
        getF d "market" = bsonVal (getV q.1 "market") ∧
        getF d "selection" = bsonVal (getV q.1 "selection") ∧
        getF d "odds" = bsonVal (getV q.1 "odds") := by
  have hproj : ∀ (payload : Doc) (now : Int) (fresh : Nat → String) (db : DB)
      (counts : SyncCounts) (db' : DB),
      syncSlips payload now fresh db = some (counts, db') →
      db'.generated_slip_legs = applyOps db.generated_slip_legs
        ((payloadLegs payload fresh).map
          (fun q => legOpOf q (masterKeyOf (getF payload "master_slip")) now)) := by
    intro payload now fresh db counts db' h
    have ht : truthy (getF payload "master_slip") = true := by
      by_contra hc
      rw [Bool.not_eq_true] at hc
      unfold syncSlips at h
      rw [hc] at h
      simp at h
    rw [syncSlips_eq payload now fresh db ht] at h
    have hdb' : db' = syncStateOf payload now fresh db :=
      (Prod.mk.injEq _ _ _ _ ▸ Option.some.inj h).2.symm
    subst hdb'
    show applyOps db.generated_slip_legs _ = _
    rw [legOps_eq]
  refine ⟨hproj, fun leg sid mk now => ?_, ?_⟩
  · obtain ⟨h1, h2, h3, h4, h5, h6, h7, _⟩ := legDataOf_fields leg sid mk now
    exact ⟨h1, h2, h3, h4, h5, h6, h7⟩
  · intro payload now fresh db counts db' h hnd hdisj q hq
    rw [hproj payload now fresh db counts db' h]
    have hwf : ∀ o ∈ (payloadLegs payload fresh).map
        (fun q => legOpOf q (masterKeyOf (getF payload "master_slip")) now),
        wfOp o := by
      intro o ho
      obtain ⟨q', hq', he⟩ := List.mem_map.mp ho
      rw [← he]
      exact wfOp_legOp q' _ now (hnd q' hq')
    have hdisj' : List.Pairwise
        (fun o o' => filterDisjoint o.filter o'.filter)
        ((payloadLegs payload fresh).map
          (fun q => legOpOf q (masterKeyOf (getF payload "master_slip")) now)) := by
      rw [List.pairwise_map]
      exact hdisj.imp (fun hne => filterDisjoint_single hne)
    obtain ⟨d, hd, hv⟩ := applyOps_effect _ db.generated_slip_legs hwf hdisj'
      (legOpOf q (masterKeyOf (getF payload "master_slip")) now)
      (List.mem_map.mpr ⟨q, hq, rfl⟩)
    obtain ⟨f1, f2, f3, f4, f5, f6, _, _⟩ :=
      legDataOf_fields q.1 q.2 (masterKeyOf (getF payload "master_slip")) now
    have hH : ∀ k : String, k = "slip_id" ∨ k = "master_slip_id" ∨
        k = "match_id" ∨ k = "market" ∨ k = "selection" ∨ k = "odds" →
        hasF (legDataOf q.1 q.2 (masterKeyOf (getF payload "master_slip")) now)
          k = true := by
      intro k hk
      unfold legDataOf
      rw [hasF_setF, hasF_setF, hasF_setF, hasF_setF, hasF_setF, hasF_setF,
        hasF_setF, hasF_setF]
      rcases hk with rfl | rfl | rfl | rfl | rfl | rfl <;> simp
    have hvK : ∀ k : String,
        hasF (legDataOf q.1 q.2 (masterKeyOf (getF payload "master_slip")) now)
          k = true →
        getF d k = bsonVal
          (getF (legDataOf q.1 q.2
            (masterKeyOf (getF payload "master_slip")) now) k) := hv
    refine ⟨d, hd, ?_, ?_, ?_, ?_, ?_, ?_⟩
    · rw [hvK "slip_id" (hH _ (Or.inl rfl)), f1]
      rfl
    · rw [hvK "master_slip_id" (hH _ (Or.inr (Or.inl rfl))), f2]
      rfl
    · rw [hvK "match_id" (hH _ (Or.inr (Or.inr (Or.inl rfl)))), f3]
    · rw [hvK "market" (hH _ (Or.inr (Or.inr (Or.inr (Or.inl rfl))))), f4]
    · rw [hvK "selection"
        (hH _ (Or.inr (Or.inr (Or.inr (Or.inr (Or.inl rfl)))))), f5]
    · rw [hvK "odds"
        (hH _ (Or.inr (Or.inr (Or.inr (Or.inr (Or.inr rfl)))))), f6]


/-- First leg of the C4 witness payload. -/
def witLeg1 : JVal :=
  .obj [("id", .str "L1"), ("match_id", .num 1), ("market", .str "m1")]

/-- Second leg of the C4 witness payload. -/
def witLeg2 : JVal :=
  .obj [("id", .str "L2"), ("match_id", .num 2), ("market", .str "m2")]

/-- A sync payload whose single generated slip has two legs with distinct
ids. -/
def distinctLegsPayload : Doc :=
  [("master_slip", .obj [("id", .num 1)]),
   ("generated_slips", .arr [.obj [("id", .str "s1"),
     ("legs", .arr [witLeg1, witLeg2])]])]

/-- Witness for C4 (amended): after the sync, each of the two distinct-id legs
has its own stored document carrying its own copied fields. -/
theorem C4_leg_upserts_witness :
    (∃ d, (syncStateOf distinctLegsPayload 0 (fun _ => "g")
          emptyDB).generated_slip_legs.find?
        (fun x => mongoMatches x [("id", JVal.str "L1")]) = some d ∧
      getF d "slip_id" = JVal.str "s1" ∧ getF d "match_id" = JVal.num 1 ∧
      getF d "market" = JVal.str "m1") ∧
    ∃ d, (syncStateOf distinctLegsPayload 0 (fun _ => "g")
          emptyDB).generated_slip_legs.find?
        (fun x => mongoMatches x [("id", JVal.str "L2")]) = some d ∧
      getF d "slip_id" = JVal.str "s1" ∧ getF d "match_id" = JVal.num 2 ∧
      getF d "market" = JVal.str "m2" := by
  constructor
  · obtain ⟨d, hd, h1, _, h3, h4, _, _⟩ :=
      C4_leg_upserts.2.2 distinctLegsPayload 0 (fun _ => "g") emptyDB
        (countsOf distinctLegsPayload)
        (syncStateOf distinctLegsPayload 0 (fun _ => "g") emptyDB)
        (syncSlips_eq _ _ _ _ (by with_unfolding_all rfl))
        (by with_unfolding_all decide)
        (by with_unfolding_all decide)
        (witLeg1, "s1") (by with_unfolding_all decide)
    exact ⟨d, hd, h1, h3, h4⟩
  · obtain ⟨d, hd, h1, _, h3, h4, _, _⟩ :=
      C4_leg_upserts.2.2 distinctLegsPayload 0 (fun _ => "g") emptyDB
        (countsOf distinctLegsPayload)
        (syncStateOf distinctLegsPayload 0 (fun _ => "g") emptyDB)
        (syncSlips_eq _ _ _ _ (by with_unfolding_all rfl))
        (by with_unfolding_all decide)
        (by with_unfolding_all decide)
        (witLeg2, "s1") (by with_unfolding_all decide)
    exact ⟨d, hd, h1, h3, h4⟩


/-! ## Claim C9 -/

theorem getF_eq_undef_of_not_has {d : Doc} {k : String}
    (h : hasF d k = false) : getF d k = .undef := by
  induction d with
  | nil => rfl
  | cons p t ih =>
    unfold hasF at h
    simp only [List.any_cons, Bool.or_eq_false_iff] at h
    rw [getF_cons, if_neg (by simp [h.1])]
    exact ih (by unfold hasF; exact h.2)

theorem nodup_keys_mergeDoc {base : Doc} (upd : Doc)
    (h : (base.map (fun p => p.1)).Nodup) :
    ((mergeDoc base upd).map (fun p => p.1)).Nodup := by
  induction upd generalizing base with
  | nil => exact h
  | cons p t ih =>
    show ((mergeDoc (setF base p.1 p.2) t).map (fun p => p.1)).Nodup
    exact ih (nodup_keys_setF p.1 p.2 h)

/-- A sync payload whose `matches` entry carries a `match_data` that itself
has an `id` key. -/
def idOverridePayload : Doc :=
  [("master_slip", .obj [("id", .num 1)]),
   ("matches", .arr [.obj [("id", .num 7), ("match_id", .num 5),
     ("match_data", .obj [("id", .num 99), ("homeTeam", .str "Y")])]])]

/-- Counterexample to C9 as stated: with `match_data = {id: 99, homeTeam:
"Y"}` and `match_id = 5`, the spread `{..., ...match_data}` overrides the
extracted `id`, so the global registry receives a document keyed `99` — no
Match record keyed by the entry's `match_id` (5) is upserted. -/
theorem C9_counterexample :
    (match syncSlips idOverridePayload 0 (fun _ => "g") emptyDB with
     | some (_, db') => db'.matches_reg
     | none => []) =
      [[("id", .num 99), ("home_team", .str "Y"), ("away_team", .str ""),
        ("homeTeam", .str "Y")]] := by
  with_unfolding_all rfl

/-- The registry upsert a `matches` entry with truthy `match_data`
produces. -/
def matchRegOp (m : JVal) : Op :=
  ⟨[("id", getF (extractedMatchOf m) "id")], extractedMatchOf m⟩

theorem wfOp_matchRegOp (m : JVal) : wfOp (matchRegOp m) := by
  unfold wfOp matchRegOp
  dsimp only
  refine ⟨?_, by simp, ?_, ?_⟩
  · intro p hp _
    have hp' : p = ("id", getF (extractedMatchOf m) "id") := by simpa using hp
    subst hp'
    rfl
  · unfold extractedMatchOf
    exact nodup_keys_mergeDoc _ (by simp)
  · intro p hp
    have hp' : p = ("id", getF (extractedMatchOf m) "id") := by simpa using hp
    subst hp'
    show ("id" : String) ≠ "updated_at"
    decide

/-- **C9 (amended)**: a `matches` entry with truthy `match_data` produces one
upsert into the global Match registry, but keyed by the *extracted* `id` —
which is `match_data.id` whenever `match_data` itself carries an `id` key
(the `...match_data` spread overrides the extracted keys), and the entry's
`match_id` only otherwise.  `home_team` is `match_data.home_team` whenever
that key is present (any value), else a truthy `match_data.homeTeam`, else
`""` (away analogous); every `match_data` field is carried into the `$set`,
and an update merges into the stored document, preserving its other
fields. -/
theorem C9_match_extraction :
    (∀ (payload : Doc) (now : Int) (fresh : Nat → String) (db : DB)
        (counts : SyncCounts) (db' : DB),
        syncSlips payload now fresh db = some (counts, db') →
        db'.matches_reg = applyOps db.matches_reg
          ((matchEntries payload).bind matchRegOpsOf)) ∧
    (∀ m : JVal, (truthy (getV m "match_data") = true →
        matchRegOpsOf m = [matchRegOp m]) ∧
      (truthy (getV m "match_data") = false → matchRegOpsOf m = [])) ∧
    (∀ m : JVal,
        ((docOf (getV m "match_data")).map (fun p => p.1)).Nodup →
        getF (extractedMatchOf m) "id" =
          (if hasF (docOf (getV m "match_data")) "id" then
            getF (docOf (getV m "match_data")) "id"
          else getV m "match_id") ∧
        getF (extractedMatchOf m) "home_team" =
          (if hasF (docOf (getV m "match_data")) "home_team" then
            getF (docOf (getV m "match_data")) "home_team"
          else jsOr (getV (getV m "match_data") "homeTeam") (.str "")) ∧
        getF (extractedMatchOf m) "away_team" =
          (if hasF (docOf (getV m "match_data")) "away_team" then
            getF (docOf (getV m "match_data")) "away_team"
          else jsOr (getV (getV m "match_data") "awayTeam") (.str "")) ∧
        ∀ (k : String) (v : JVal), (k, v) ∈ docOf (getV m "match_data") →
          getF (extractedMatchOf m) k = v) ∧
    ∀ (c : List Doc) (m : JVal) (d0 : Doc),
      c.find? (fun x => mongoMatches x (matchRegOp m).filter) = some d0 →
      ∃ d, (applyOp c (matchRegOp m)).find?
          (fun x => mongoMatches x (matchRegOp m).filter) = some d ∧
        (∀ k : String, hasF (extractedMatchOf m) k = true →
          getF d k = bsonVal (getF (extractedMatchOf m) k)) ∧
        ∀ k : String, hasF (extractedMatchOf m) k = false →
          getF d k = getF d0 k := by
  refine ⟨?_, ?_, ?_, ?_⟩
  · intro payload now fresh db counts db' h
    have ht : truthy (getF payload "master_slip") = true := by
      by_contra hc
      rw [Bool.not_eq_true] at hc
      unfold syncSlips at h
      rw [hc] at h
      simp at h
    rw [syncSlips_eq payload now fresh db ht] at h
    have hdb' : db' = syncStateOf payload now fresh db :=
      (Prod.mk.injEq _ _ _ _ ▸ Option.some.inj h).2.symm
    subst hdb'
    rfl
  · intro m
    constructor
    · intro hmd
      unfold matchRegOpsOf matchRegOp
      rw [if_pos hmd]
    · intro hmd
      unfold matchRegOpsOf
      rw [if_neg (by simp [hmd])]
  · intro m hnd
    have hbase : getF [("id", getV m "match_id"),
        ("home_team", resolveTeam (getV m "match_data") "home_team" "homeTeam"),
        ("away_team", resolveTeam (getV m "match_data") "away_team" "awayTeam")]
        "id" = getV m "match_id" := by
      rw [getF_cons, if_pos (by simp)]
    refine ⟨?_, ?_, ?_, ?_⟩
    · by_cases hh : hasF (docOf (getV m "match_data")) "id"
      · rw [if_pos hh]
        exact getF_mergeDoc_of_has _ hh hnd
      · rw [if_neg hh]
        unfold extractedMatchOf
        rw [getF_mergeDoc_not_has _ _ _ (by simpa using hh), hbase]
    · by_cases hh : hasF (docOf (getV m "match_data")) "home_team"
      · rw [if_pos hh]
        exact getF_mergeDoc_of_has _ hh hnd
      · rw [if_neg hh]
        unfold extractedMatchOf
        rw [getF_mergeDoc_not_has _ _ _ (by simpa using hh)]
        rw [getF_cons, if_neg (by simp), getF_cons, if_pos (by simp)]
        unfold resolveTeam
        rw [show getV (getV m "match_data") "home_team" =
          getF (docOf (getV m "match_data")) "home_team"
          from getV_eq_getF_docOf _ _]
        rw [getF_eq_undef_of_not_has (by simpa using hh)]
        rfl
    · by_cases hh : hasF (docOf (getV m "match_data")) "away_team"
      · rw [if_pos hh]
        exact getF_mergeDoc_of_has _ hh hnd
      · rw [if_neg hh]
        unfold extractedMatchOf
        rw [getF_mergeDoc_not_has _ _ _ (by simpa using hh)]
        rw [getF_cons, if_neg (by simp), getF_cons, if_neg (by simp),
          getF_cons, if_pos (by simp)]
        unfold resolveTeam
        rw [show getV (getV m "match_data") "away_team" =
          getF (docOf (getV m "match_data")) "away_team"
          from getV_eq_getF_docOf _ _]
        rw [getF_eq_undef_of_not_has (by simpa using hh)]
        rfl
    · intro k v hkv
      exact getF_mergeDoc_mem _ hkv hnd
  · intro c m d0 hd0
    have hw := wfOp_matchRegOp m
    have hstill := mongoMatches_after_set hw (by simpa using List.find?_some hd0)
    refine ⟨mergeDoc d0 (bsonFields (extractedMatchOf m)), ?_, ?_, ?_⟩
    · show (applyOp c (matchRegOp m)).find? _ = _
      unfold applyOp
      rw [if_pos (any_of_find? hd0)]
      exact find?_updateFirst c _ _ d0 hd0 hstill
    · intro k hk
      rw [getF_mergeDoc_of_has _ (by rw [hasF_bsonFields]; exact hk)
        (by rw [keys_bsonFields]; exact hw.2.2.1)]
      rw [getF_bsonFields, if_pos hk]
    · intro k hk
      exact getF_mergeDoc_not_has _ _ _ (by rw [hasF_bsonFields]; exact hk)

/-! ## Claim C3 -/

/-- A sync payload whose single generated slip carries neither `id` nor
`slip_id`, so each application synthesizes a fresh
`gen_<timestamp>_<random>` identifier for it. -/
def dupSlipPayload : Doc :=
  [("master_slip", .obj [("id", .num 1)]),
   ("generated_slips", .arr [.obj [("total_odds", .num 2)]])]

/-- Counterexample to C3 as stated: replaying the very same payload — at a
later clock and with a different random suffix, exactly as `Date.now()` and
`Math.random()` behave on a real second request — inserts a second
GeneratedSlip document, because the id-less entry receives a fresh
synthesized `slip_id` on each application.  One application stores one
generated slip; the replay stores a duplicate. -/
theorem C3_counterexample :
    (match syncSlips dupSlipPayload 0 (fun _ => "a") emptyDB with
     | some (_, db1) =>
       (match syncSlips dupSlipPayload 1 (fun _ => "b") db1 with
        | some (_, db2) =>
            (db1.generated_slips.length, db2.generated_slips.length)
        | none => (0, 0))
     | none => (0, 0)) = (1, 2) := by
  with_unfolding_all rfl

/-- Every binding of key `k` in `d` carries value `v`, and one exists. -/
def keyFixed (d : Doc) (k : String) (v : JVal) : Prop :=
  hasF d k = true ∧ ∀ q ∈ d, q.1 = k → q.2 = v

theorem not_has_no_binding {d : Doc} {k : String} (h : hasF d k = false) :
    ∀ q ∈ d, q.1 ≠ k := by
  intro q hq he
  rw [hasF_eq_false_iff] at h
  exact h (List.mem_map.mpr ⟨q, hq, he⟩)

theorem keyFixed_setF_same (d : Doc) (k : String) (v : JVal) :
    keyFixed (setF d k v) k v := by
  constructor
  · rw [hasF_setF]
    simp
  · intro q hq he
    unfold setF at hq
    by_cases hm : d.any (fun p => p.1 == k)
    · rw [if_pos hm] at hq
      obtain ⟨p, hp, hpe⟩ := List.mem_map.mp hq
      by_cases hpk : p.1 == k
      · rw [if_pos hpk] at hpe
        rw [← hpe]
      · rw [if_neg hpk] at hpe
        subst hpe
        exact absurd he (by simpa using hpk)
    · rw [if_neg hm] at hq
      rcases List.mem_append.mp hq with hq | hq
      · have hmf : hasF d k = false := by
          unfold hasF
          rcases Bool.eq_false_or_eq_true (d.any (fun p => p.1 == k)) with h0 | h0
          · exact absurd h0 hm
          · exact h0
        exact absurd he (not_has_no_binding hmf q hq)
      · have hqe : q = (k, v) := by simpa using hq
        rw [hqe]

theorem keyFixed_setF_ne {d : Doc} {k : String} {v : JVal} {k' : String}
    (hne : k' ≠ k) (v' : JVal) (h : keyFixed d k v) :
    keyFixed (setF d k' v') k v := by
  obtain ⟨hh, hv⟩ := h
  constructor
  · rw [hasF_setF, hh]
    simp
  · intro q hq he
    unfold setF at hq
    by_cases hm : d.any (fun p => p.1 == k')
    · rw [if_pos hm] at hq
      obtain ⟨p, hp, hpe⟩ := List.mem_map.mp hq
      by_cases hpk : p.1 == k'
      · rw [if_pos hpk] at hpe
        subst hpe
        exact absurd he hne
      · rw [if_neg hpk] at hpe
        subst hpe
        exact hv p hp he
    · rw [if_neg hm] at hq
      rcases List.mem_append.mp hq with hq | hq
      · exact hv q hq he
      · have hqe : q = (k', v') := by simpa using hq
        subst hqe
        exact absurd he hne

theorem keyFixed_mergeDoc {upd : Doc} {d : Doc} {k : String} {v : JVal}
    (hk : ∀ q ∈ upd, q.1 ≠ k) (h : keyFixed d k v) :
    keyFixed (mergeDoc d upd) k v := by
  induction upd generalizing d with
  | nil => exact h
  | cons p t ih =>
    show keyFixed (mergeDoc (setF d p.1 p.2) t) k v
    exact ih (fun q hq => hk q (List.mem_cons_of_mem p hq))
      (keyFixed_setF_ne (hk p (List.mem_cons_self p t)) p.2 h)

theorem mergeDoc_keyFixed {upd : Doc} (d : Doc)
    (hnd : (upd.map (fun p => p.1)).Nodup) :
    ∀ p ∈ upd, keyFixed (mergeDoc d upd) p.1 p.2 := by
  induction upd generalizing d with
  | nil =>
    intro p hp
    exact absurd hp (List.not_mem_nil p)
  | cons q t ih =>
    rw [List.map_cons, List.nodup_cons] at hnd
    intro p hp
    rcases List.mem_cons.mp hp with rfl | hpt
    · show keyFixed (mergeDoc (setF d p.1 p.2) t) p.1 p.2
      refine keyFixed_mergeDoc ?_ (keyFixed_setF_same d p.1 p.2)
      intro x hx he
      exact hnd.1 (List.mem_map.mpr ⟨x, hx, he⟩)
    · show keyFixed (mergeDoc (setF d q.1 q.2) t) p.1 p.2
      exact ih (setF d q.1 q.2) hnd.2 p hpt

theorem setF_fixed {d : Doc} {k : String} {v : JVal} (h : keyFixed d k v) :
    setF d k v = d := by
  obtain ⟨hh, hv⟩ := h
  unfold hasF at hh
  unfold setF
  rw [if_pos hh]
  have hcongr : d.map (fun p => if p.1 == k then (k, v) else p) = d.map id := by
    apply List.map_congr_left
    intro p hp
    by_cases hpk : p.1 == k
    · rw [if_pos hpk]
      have h1 : p.1 = k := by simpa using hpk
      have h2 : p.2 = v := hv p hp h1
      show (k, v) = id p
      rw [← h1, ← h2]
      rfl
    · rw [if_neg hpk]
      rfl
  rw [hcongr, List.map_id]

theorem mergeDoc_fixed {upd : Doc} {d : Doc}
    (h : ∀ p ∈ upd, keyFixed d p.1 p.2) : mergeDoc d upd = d := by
  induction upd with
  | nil => rfl
  | cons p t ih =>
    show mergeDoc (setF d p.1 p.2) t = d
    rw [setF_fixed (h p (List.mem_cons_self p t))]
    exact ih (fun q hq => h q (List.mem_cons_of_mem p hq))

theorem updateFirst_fixed {c : List Doc} {f s : Doc} {d : Doc}
    (hf : c.find? (fun x => mongoMatches x f) = some d)
    (hfix : mergeDoc d (bsonFields s) = d) : updateFirst c f s = c := by
  induction c with
  | nil => rfl
  | cons x t ih =>
    rw [List.find?_cons] at hf
    rw [updateFirst_cons]
    by_cases hx : mongoMatches x f
    · rw [if_pos hx]
      simp only [hx] at hf
      have hxd : x = d := by simpa using hf
      rw [hxd, hfix]
    · have hx' : mongoMatches x f = false := by simpa using hx
      rw [if_neg hx]
      simp only [hx'] at hf
      rw [ih hf]

theorem applyOp_fixed {c : List Doc} {o : Op} {d : Doc}
    (hf : c.find? (fun x => mongoMatches x o.filter) = some d)
    (hfix : mergeDoc d (bsonFields o.setDoc) = d) : applyOp c o = c := by
  unfold applyOp
  rw [if_pos (any_of_find? hf)]
  exact updateFirst_fixed hf hfix

theorem applyOps_fixed {ops : List Op} {c : List Doc}
    (h : ∀ o ∈ ops, ∃ d,
      c.find? (fun x => mongoMatches x o.filter) = some d ∧
      mergeDoc d (bsonFields o.setDoc) = d) :
    applyOps c ops = c := by
  induction ops with
  | nil => rfl
  | cons o t ih =>
    rw [applyOps_cons]
    obtain ⟨d, hf, hfix⟩ := h o (List.mem_cons_self o t)
    rw [applyOp_fixed hf hfix]
    exact ih (fun x hx => h x (List.mem_cons_of_mem o hx))

/-- After a well-formed upsert, the first match of the op's own filter is a
fixed point of the op's `$set` merge. -/
theorem applyOp_effect_fixed (c : List Doc) (o : Op) (hw : wfOp o) :
    ∃ d, (applyOp c o).find? (fun x => mongoMatches x o.filter) = some d ∧
      mergeDoc d (bsonFields o.setDoc) = d := by
  have hnd : ((bsonFields o.setDoc).map (fun p => p.1)).Nodup := by
    rw [keys_bsonFields]
    exact hw.2.2.1
  unfold applyOp
  by_cases hany : c.any (fun d => mongoMatches d o.filter)
  · rw [if_pos hany]
    cases hf : c.find? (fun d => mongoMatches d o.filter) with
    | none =>
      exfalso
      obtain ⟨x, hx, hpx⟩ := List.any_eq_true.mp hany
      rw [List.find?_eq_none] at hf
      have hfx : ¬ mongoMatches x o.filter = true := by simpa using hf x hx
      exact hfx hpx
    | some d0 =>
      have hstill := mongoMatches_after_set hw
        (by simpa using List.find?_some hf)
      refine ⟨mergeDoc d0 (bsonFields o.setDoc),
        find?_updateFirst c o.filter o.setDoc d0 hf hstill, ?_⟩
      exact mergeDoc_fixed (mergeDoc_keyFixed d0 hnd)
  · rw [if_neg hany]
    refine ⟨mergeDoc (bsonFields o.filter) (bsonFields o.setDoc), ?_, ?_⟩
    · rw [List.find?_append, find?_eq_none_of_not_any hany]
      simp only [Option.none_or]
      rw [List.find?_cons]
      simp [mongoMatches_insert hw]
    · exact mergeDoc_fixed (mergeDoc_keyFixed _ hnd)

/-- In the final state of pairwise-disjoint well-formed upserts, every op's
first match is a fixed point of that op's `$set` merge. -/
theorem applyOps_effect_fixed (ops : List Op) (c : List Doc)
    (hw : ∀ o ∈ ops, wfOp o)
    (hdisj : List.Pairwise (fun o o' => filterDisjoint o.filter o'.filter) ops) :
    ∀ o ∈ ops, ∃ d,
      (applyOps c ops).find? (fun x => mongoMatches x o.filter) = some d ∧
      mergeDoc d (bsonFields o.setDoc) = d := by
  induction ops generalizing c with
  | nil =>
    intro o ho
    exact absurd ho (List.not_mem_nil o)
  | cons op t ih =>
    rw [List.pairwise_cons] at hdisj
    intro o ho
    rcases List.mem_cons.mp ho with rfl | hot
    · obtain ⟨d, hd, hp⟩ := applyOp_effect_fixed c o (hw o (List.mem_cons_self o t))
      refine ⟨d, ?_, hp⟩
      rw [applyOps_cons]
      rw [applyOps_find?_frame (fun x hx => hw x (List.mem_cons_of_mem o hx)) ?_]
      · exact hd
      · intro x hx d0 ⟨hm1, hm2⟩
        exact hdisj.1 x hx d0 ⟨hm2, hm1⟩
    · rw [applyOps_cons]
      exact ih (applyOp c op) (fun x hx => hw x (List.mem_cons_of_mem op hx))
        hdisj.2 o hot

/-- Replaying the same pairwise-disjoint well-formed upserts is a no-op. -/
theorem applyOps_idem (ops : List Op) (c : List Doc)
    (hw : ∀ o ∈ ops, wfOp o)
    (hdisj : List.Pairwise (fun o o' => filterDisjoint o.filter o'.filter) ops) :
    applyOps (applyOps c ops) ops = applyOps c ops :=
  applyOps_fixed (applyOps_effect_fixed ops c hw hdisj)

theorem applyOp_idem (c : List Doc) (o : Op) (hw : wfOp o) :
    applyOp (applyOp c o) o = applyOp c o := by
  obtain ⟨d, hf, hfix⟩ := applyOp_effect_fixed c o hw
  exact applyOp_fixed hf hfix

/-- The MasterSlip upsert of a sync (lines 344–354). -/
def masterOpOf (master : JVal) (now : Int) : Op :=
  ⟨[("master_slip_id", .str (masterKeyOf master))], masterSlipDataOf master now⟩

theorem wfOp_masterOp (master : JVal) (now : Int)
    (hnd : ((docOf master).map (fun p => p.1)).Nodup) :
    wfOp (masterOpOf master now) := by
  unfold wfOp masterOpOf
  dsimp only
  refine ⟨?_, by simp, ?_, ?_⟩
  · intro p hp _
    have hp' : p = ("master_slip_id", .str (masterKeyOf master)) := by
      simpa using hp
    subst hp'
    show getF (masterSlipDataOf master now) "master_slip_id" =
      .str (masterKeyOf master)
    unfold masterSlipDataOf
    rw [getF_setF_ne _ (by decide), getF_setF_same]
  · unfold masterSlipDataOf
    apply nodup_keys_setF
    apply nodup_keys_setF
    exact hnd
  · intro p hp
    have hp' : p = ("master_slip_id", .str (masterKeyOf master)) := by
      simpa using hp
    subst hp'
    show ("master_slip_id" : String) ≠ "updated_at"
    decide

theorem wfOp_slipOp (p : Nat × JVal) (masterKey : String) (now : Int)
    (fresh : Nat → String) (hnd : ((docOf p.2).map (fun q => q.1)).Nodup) :
    wfOp (slipOpOf p masterKey now fresh) := by
  unfold wfOp slipOpOf
  dsimp only
  refine ⟨?_, by simp, ?_, ?_⟩
  · intro q hq _
    have hq' : q = ("slip_id", .str (slipIdOf p.2 (fresh p.1))) := by
      simpa using hq
    subst hq'
    show getF (slipDataOf p.2 masterKey (slipIdOf p.2 (fresh p.1)) now)
      "slip_id" = .str (slipIdOf p.2 (fresh p.1))
    unfold slipDataOf
    rw [getF_setF_ne _ (by decide), getF_setF_ne _ (by decide), getF_setF_same]
  · unfold slipDataOf
    apply nodup_keys_setF
    apply nodup_keys_setF
    apply nodup_keys_setF
    exact hnd
  · intro q hq
    have hq' : q = ("slip_id", .str (slipIdOf p.2 (fresh p.1))) := by
      simpa using hq
    subst hq'
    show ("slip_id" : String) ≠ "updated_at"
    decide

theorem wfOp_optOp (s : JVal) (masterKey : String) (now : Int)
    (hnd : ((docOf s).map (fun p => p.1)).Nodup) :
    wfOp (optOpOf s masterKey now) := by
  unfold wfOp optOpOf
  dsimp only
  refine ⟨?_, ?_, ?_, ?_⟩
  · intro q hq _
    rcases (by simpa using hq :
        q = ("id", getV s "id") ∨ q = ("master_slip_id", parseIntJV masterKey))
      with hq' | hq'
    · subst hq'
      show getF (optSlipDataOf s masterKey now) "id" = getV s "id"
      unfold optSlipDataOf
      rw [getF_setF_ne _ (by decide), getF_setF_ne _ (by decide),
        getV_eq_getF_docOf]
    · subst hq'
      show getF (optSlipDataOf s masterKey now) "master_slip_id" =
        parseIntJV masterKey
      unfold optSlipDataOf
      rw [getF_setF_ne _ (by decide), getF_setF_same]
  · show ((["id", "master_slip_id"] : List String)).Nodup
    decide
  · unfold optSlipDataOf
    apply nodup_keys_setF
    apply nodup_keys_setF
    exact hnd
  · intro q hq
    rcases (by simpa using hq :
        q = ("id", getV s "id") ∨ q = ("master_slip_id", parseIntJV masterKey))
      with hq' | hq'
    · subst hq'
      show ("id" : String) ≠ "updated_at"
      decide
    · subst hq'
      show ("master_slip_id" : String) ≠ "updated_at"
      decide

theorem wfOp_msmOp (m : JVal) (masterKey : String) (now : Int)
    (hnd : ((docOf m).map (fun p => p.1)).Nodup) :
    wfOp (msmOpOf m masterKey now) := by
  unfold wfOp msmOpOf
  dsimp only
  refine ⟨?_, by simp, ?_, ?_⟩
  · intro q hq _
    have hq' : q = ("id", getV m "id") := by simpa using hq
    subst hq'
    show getF (msmDataOf m masterKey now) "id" = getV m "id"
    unfold msmDataOf
    rw [getF_setF_ne _ (by decide), getF_setF_ne _ (by decide),
      getV_eq_getF_docOf]
  · unfold msmDataOf
    apply nodup_keys_setF
    apply nodup_keys_setF
    exact hnd
  · intro q hq
    have hq' : q = ("id", getV m "id") := by simpa using hq
    subst hq'
    show ("id" : String) ≠ "updated_at"
    decide

/-- Two filters that open with the same key bound to different BSON values
are disjoint, whatever their tails. -/
theorem filterDisjoint_head {k : String} {v w : JVal} (r r' : Doc)
    (h : bsonVal v ≠ bsonVal w) :
    filterDisjoint ((k, v) :: r) ((k, w) :: r') := by
  intro d ⟨h1, h2⟩
  unfold mongoMatches at h1 h2
  simp only [List.all_cons, Bool.and_eq_true] at h1 h2
  exact h (mongoEqVal_functional h1.1 h2.1)

theorem bsonVal_str (s : String) : bsonVal (.str s) = .str s := rfl

theorem snd_mem_of_mem_enumFrom {α : Type} {l : List α} {n : Nat}
    {p : Nat × α} (h : p ∈ l.enumFrom n) : p.2 ∈ l := by
  induction l generalizing n with
  | nil => exact absurd h (List.not_mem_nil p)
  | cons a t ih =>
    rw [show (a :: t).enumFrom n = (n, a) :: t.enumFrom (n + 1) from rfl] at h
    rcases List.mem_cons.mp h with rfl | h
    · exact List.mem_cons_self _ _
    · exact List.mem_cons_of_mem _ (ih h)

theorem snd_mem_of_mem_enum {α : Type} {l : List α} {p : Nat × α}
    (h : p ∈ l.enum) : p.2 ∈ l :=
  snd_mem_of_mem_enumFrom h

theorem bind_matchRegOpsOf (l : List JVal) :
    l.bind matchRegOpsOf =
      (l.filter (fun m => truthy (getV m "match_data"))).map matchRegOp := by
  induction l with
  | nil => rfl
  | cons m t ih =>
    rw [show (m :: t).bind matchRegOpsOf =
        matchRegOpsOf m ++ t.bind matchRegOpsOf from rfl, ih]
    by_cases h : truthy (getV m "match_data")
    · rw [show (m :: t).filter (fun m => truthy (getV m "match_data")) =
          m :: t.filter (fun m => truthy (getV m "match_data")) from by
        simp [List.filter_cons, h]]
      unfold matchRegOpsOf
      rw [if_pos h]
      rfl
    · have h' : truthy (getV m "match_data") = false := by simpa using h
      rw [show (m :: t).filter (fun m => truthy (getV m "match_data")) =
          t.filter (fun m => truthy (getV m "match_data")) from by
        simp [List.filter_cons, h']]
      unfold matchRegOpsOf
      rw [if_neg h]
      rfl

/-- Payload well-formedness for replay: every object carried by the payload
has unique keys (as parsed JSON objects always do), and the business keys
within each collection's upserts are pairwise distinct. -/
def syncWF (payload : Doc) (fresh : Nat → String) : Prop :=
  ((docOf (getF payload "master_slip")).map (fun p => p.1)).Nodup ∧
  (∀ s ∈ genEntries payload, ((docOf s).map (fun p => p.1)).Nodup) ∧
  (∀ q ∈ payloadLegs payload fresh, ((docOf q.1).map (fun p => p.1)).Nodup) ∧
  (∀ s ∈ optEntries payload, ((docOf s).map (fun p => p.1)).Nodup) ∧
  (∀ m ∈ matchEntries payload, ((docOf m).map (fun p => p.1)).Nodup) ∧
  ((genEntries payload).enum.map
    (fun p => slipIdOf p.2 (fresh p.1))).Pairwise (· ≠ ·) ∧
  ((payloadLegs payload fresh).map
    (fun q => bsonVal (getV q.1 "id"))).Pairwise (· ≠ ·) ∧
  ((optEntries payload).map
    (fun s => bsonVal (getV s "id"))).Pairwise (· ≠ ·) ∧
  ((matchEntries payload).map
    (fun m => bsonVal (getV m "id"))).Pairwise (· ≠ ·) ∧
  (((matchEntries payload).filter (fun m => truthy (getV m "match_data"))).map
    (fun m => bsonVal (getF (extractedMatchOf m) "id"))).Pairwise (· ≠ ·)

/-- Replaying a well-formed sync over its own result state changes
nothing. -/
theorem syncStateOf_idem (payload : Doc) (now : Int) (fresh : Nat → String)
    (db : DB) (hwf : syncWF payload fresh) :
    syncStateOf payload now fresh (syncStateOf payload now fresh db) =
      syncStateOf payload now fresh db := by
  obtain ⟨hmN, hsN, hlN, hoN, hmaN, hsd, hld, hod, hmd, hrd⟩ := hwf
  unfold syncStateOf
  dsimp only
  congr 1
  · exact applyOp_idem _ _ (wfOp_masterOp (getF payload "master_slip") now hmN)
  · apply applyOps_idem
    · intro o ho
      obtain ⟨p, hp, rfl⟩ := List.mem_map.mp ho
      exact wfOp_slipOp p _ now fresh (hsN p.2 (snd_mem_of_mem_enum hp))
    · rw [List.pairwise_map]
      refine (List.pairwise_map.mp hsd).imp ?_
      intro a b hne
      refine filterDisjoint_single ?_
      rw [bsonVal_str, bsonVal_str]
      intro hc
      exact hne (JVal.str.inj hc)
  · rw [legOps_eq payload fresh (masterKeyOf (getF payload "master_slip")) now]
    apply applyOps_idem
    · intro o ho
      obtain ⟨q, hq, rfl⟩ := List.mem_map.mp ho
      exact wfOp_legOp q _ now (hlN q hq)
    · rw [List.pairwise_map]
      refine (List.pairwise_map.mp hld).imp ?_
      intro a b hne
      exact filterDisjoint_single hne
  · apply applyOps_idem
    · intro o ho
      obtain ⟨s, hs, rfl⟩ := List.mem_map.mp ho
      exact wfOp_optOp s _ now (hoN s hs)
    · rw [List.pairwise_map]
      refine (List.pairwise_map.mp hod).imp ?_
      intro a b hne
      exact filterDisjoint_head _ _ hne
  · apply applyOps_idem
    · intro o ho
      obtain ⟨m, hm, rfl⟩ := List.mem_map.mp ho
      exact wfOp_msmOp m _ now (hmaN m hm)
    · rw [List.pairwise_map]
      refine (List.pairwise_map.mp hmd).imp ?_
      intro a b hne
      exact filterDisjoint_single hne
  · rw [bind_matchRegOpsOf]
    apply applyOps_idem
    · intro o ho
      obtain ⟨m, _, rfl⟩ := List.mem_map.mp ho
      exact wfOp_matchRegOp m
    · rw [List.pairwise_map]
      refine (List.pairwise_map.mp hrd).imp ?_
      intro a b hne
      exact filterDisjoint_single hne

/-- Claim C3 (amended): sync is NOT idempotent as stated — an entry without a
stable identifier is duplicated on replay (see the counterexample: each
application synthesizes a fresh `gen_<timestamp>_<random>` slip id).  What
does hold is deterministic-replay idempotency: for a well-formed payload
(every payload object has unique keys, and the business keys of each
collection's upserts — normalized slip ids, leg ids, optimized-slip ids,
match-entry ids and extracted registry ids — are pairwise distinct),
re-running the sync with the same clock value and the same synthesized-id
source over the state the first run produced returns the same per-collection
counters and leaves every one of the six collections literally unchanged, so
no duplicate documents arise and every retrieval observes the same state.
(With a later clock, even a stable-id payload rewrites the `updated_at`
stamps, so the stored state of a real replay agrees only up to those.) -/
theorem C3_sync_idempotent (payload : Doc) (now : Int) (fresh : Nat → String)
    (db : DB) (counts : SyncCounts) (db1 : DB)
    (hwf : syncWF payload fresh)
    (h1 : syncSlips payload now fresh db = some (counts, db1)) :
    syncSlips payload now fresh db1 = some (counts, db1) := by
  have ht : truthy (getF payload "master_slip") = true := by
    rcases Bool.eq_false_or_eq_true (truthy (getF payload "master_slip"))
      with h0 | h0
    · exact h0
    · exfalso
      unfold syncSlips at h1
      rw [h0] at h1
      simp at h1
  rw [syncSlips_eq payload now fresh db ht] at h1
  have h2 := Option.some.inj h1
  have hc : countsOf payload = counts := congrArg Prod.fst h2
  have hdb : syncStateOf payload now fresh db = db1 := congrArg Prod.snd h2
  rw [syncSlips_eq payload now fresh db1 ht, ← hdb,
    syncStateOf_idem payload now fresh db hwf, hc]

/-- A well-formed sync payload touching all five entity kinds, with stable
pairwise-distinct identifiers. -/
def idemPayload : Doc :=
  [("master_slip", .obj [("id", .num 1), ("total_odds", .num 4)]),
   ("generated_slips", .arr [
      .obj [("id", .str "s1"),
            ("legs", .arr [.obj [("id", .num 11), ("match_id", .num 5),
                                 ("odds", .num 2)]])],
      .obj [("slip_id", .str "s2"),
            ("legs", .arr [.obj [("id", .num 12), ("match_id", .num 6)]])]]),
   ("optimized_slips", .arr [.obj [("id", .num 21)], .obj [("id", .num 22)]]),
   ("matches", .arr [
      .obj [("id", .num 31), ("match_id", .num 5),
            ("match_data", .obj [("home_team", .str "A")])],
      .obj [("id", .num 32), ("match_id", .num 6)]])]

theorem C3_sync_idempotent_witness :
    syncWF idemPayload (fun _ => "g") ∧
    (match syncSlips idemPayload 0 (fun _ => "g") emptyDB with
     | some (counts, db1) =>
         syncSlips idemPayload 0 (fun _ => "g") db1 = some (counts, db1)
     | none => False) := by
  have hwf : syncWF idemPayload (fun _ => "g") := by
    unfold syncWF
    with_unfolding_all decide
  refine ⟨hwf, ?_⟩
  cases hs : syncSlips idemPayload 0 (fun _ => "g") emptyDB with
  | none =>
    have hsome : (syncSlips idemPayload 0 (fun _ => "g") emptyDB).isSome
        = true := by
      with_unfolding_all rfl
    rw [hs] at hsome
    exact absurd hsome (by decide)
  | some p =>
    obtain ⟨c, d⟩ := p
    exact C3_sync_idempotent idemPayload 0 (fun _ => "g") emptyDB c d hwf hs

/-- The C9 witness entry: a benign `matches` entry whose `match_data` has a
snake_case `home_team`, a camelCase-only `awayTeam`, and an extra field. -/
def benignMatchEntry : JVal :=
  .obj [("id", .num 1), ("match_id", .num 5),
    ("match_data", .obj [("home_team", .str "H"), ("awayTeam", .str "W"),
      ("venue", .str "V")])]

/-- Witness for C9 (amended): with no `id` inside `match_data`, the extracted
record is keyed by `match_id = 5`, `home_team` comes from the snake_case key,
`away_team` falls back to the camelCase key, and the extra `venue` field is
carried along. -/
theorem C9_match_extraction_witness :
    getF (extractedMatchOf benignMatchEntry) "id" = JVal.num 5 ∧
    getF (extractedMatchOf benignMatchEntry) "home_team" = JVal.str "H" ∧
    getF (extractedMatchOf benignMatchEntry) "away_team" = JVal.str "W" ∧
    getF (extractedMatchOf benignMatchEntry) "venue" = JVal.str "V" := by
  obtain ⟨h1, h2, h3, h4⟩ :=
    C9_match_extraction.2.2.1 benignMatchEntry (by with_unfolding_all decide)
  refine ⟨?_, ?_, ?_, ?_⟩
  · rw [h1]
    with_unfolding_all rfl
  · rw [h2]
    with_unfolding_all rfl
  · rw [h3]
    with_unfolding_all rfl
  · exact h4 "venue" (JVal.str "V") (by with_unfolding_all decide)

end SlipAPI
